import Mathlib

/-!
# Verification of the PDF comparison engine (`compare.py`)

Shallow embedding of the core comparison/alignment engine of the
`comparison-tool` repository.  PDF documents enter the core as their
extracted artifacts: a list of positioned text lines (for the line-level
engine) or a list of words (for the content multiset comparator), so the
embedding models every function from that boundary inwards.

Floating point is modelled with `ℚ` and Python `int` with `Nat`/`Int`.
-/

namespace PdfCompare

/-- Python `str.split()`: split on whitespace runs, dropping empty pieces. -/
def pySplit (s : String) : List String :=
  (s.split Char.isWhitespace).filter (fun t => t ≠ "")

/-- Python `sep.join(parts)`. -/
def pyJoin (sep : String) : List String → String
  | [] => ""
  | [x] => x
  | x :: y :: ys => x ++ sep ++ pyJoin sep (y :: ys)

/-- Insert a string into a sorted list, keeping ascending order
(code-point lexicographic order, as Python `sorted` uses). -/
def insertSorted (x : String) : List String → List String
  | [] => [x]
  | y :: ys => if y < x then y :: insertSorted x ys else x :: y :: ys

/-- Python `sorted` on a list of strings (ascending lexicographic order). -/
def sortStrings : List String → List String
  | [] => []
  | x :: xs => insertSorted x (sortStrings xs)

/-- Length of a longest common subsequence of two lists. -/
def lcsLen {α : Type} [DecidableEq α] : List α → List α → Nat
  | [], _ => 0
  | _ :: _, [] => 0
  | a :: as, b :: bs =>
    if a = b then lcsLen as bs + 1
    else max (lcsLen (a :: as) bs) (lcsLen as (b :: bs))
termination_by a b => a.length + b.length

/-- `rapidfuzz.fuzz.ratio`: normalized indel similarity of two strings,
scaled to `[0, 100]`; both strings empty gives `100`. -/
def fuzzRatio (x y : String) : ℚ :=
  let lx := x.length
  let ly := y.length
  if lx + ly = 0 then 100
  else
    let dist := lx + ly - 2 * lcsLen x.data y.data
    100 * (1 - (dist : ℚ) / ((lx : ℚ) + (ly : ℚ)))

/-- `rapidfuzz.fuzz.token_sort_ratio`: split each string into
whitespace-delimited tokens, sort the tokens, join with single spaces and
take `fuzz.ratio` of the two sorted-token strings. -/
def token_sort_ratio (a b : String) : ℚ :=
  fuzzRatio (pyJoin " " (sortStrings (pySplit a)))
    (pyJoin " " (sortStrings (pySplit b)))

/-- `similarity_score(a, b)` from `compare.py`: both inputs empty gives
`100`, exactly one empty gives `0`, otherwise the token-sort ratio.
(Python `not a` on a string tests emptiness.) -/
def similarity_score (a b : String) : ℚ :=
  if a = "" ∧ b = "" then 100
  else if a = "" ∨ b = "" then 0
  else token_sort_ratio a b

/-- Uniform-cost Levenshtein distance on character lists
(`rapidfuzz.distance.Levenshtein.distance` with default weights). -/
def lev : List Char → List Char → Nat
  | [], b => b.length
  | a :: as, [] => (a :: as).length
  | a :: as, b :: bs =>
    if a = b then lev as bs
    else 1 + min (lev as (b :: bs)) (min (lev (a :: as) bs) (lev as bs))
termination_by a b => a.length + b.length

/-- `normalize_text` from `compare.py`: replace non-breaking spaces,
collapse whitespace runs to single spaces, trim, lowercase. -/
def normalize_text (t : String) : String :=
  let t := t.replace " " " "
  let t := pyJoin " " (pySplit t)
  t.trim.toLower

/-- The distinct elements of a list in order of first occurrence
(the iteration order of a Python `dict` / `collections.Counter`
built from the list). -/
def firstDedup : List String → List String
  | [] => []
  | x :: xs => x :: firstDedup (xs.filter (fun y => y ≠ x))
termination_by l => l.length
decreasing_by
  simp only [List.length_cons]
  exact Nat.lt_succ_of_le (List.length_filter_le _ _)

/-- The divisor of `pdf_content_accuracy`: `sum(orig_counter.values())`,
the sum of the multiplicities of the distinct lowercased original words. -/
def contentTotalCount (origWords : List String) : Nat :=
  let ow := origWords.map String.toLower
  ((firstDedup ow).map (fun w => ow.count w)).sum

/-- `pdf_content_accuracy` from `compare.py`, modelled from the extracted
word lists onwards.  Returns
`(accuracy_percent, match_count, total_count, not_found_words)`. -/
def pdf_content_accuracy (origWords genWords : List String) :
    ℚ × Nat × Nat × List String :=
  if origWords = [] then (0, 0, 0, [])
  else
    let ow := origWords.map String.toLower
    let gw := genWords.map String.toLower
    let keys := firstDedup ow
    let matchCount := (keys.map (fun w => min (ow.count w) (gw.count w))).sum
    let notFound :=
      (keys.map (fun w =>
        List.replicate (ow.count w - min (ow.count w) (gw.count w)) w)).flatten
    let total := contentTotalCount origWords
    (((matchCount : ℚ) / (total : ℚ)) * 100, matchCount, total, notFound)

/-- `compare_pdfs_content_only` from `compare.py`, modelled from the
extracted word lists onwards: Python list equality `text1 == text2`. -/
def compare_pdfs_content_only (text1 text2 : List String) : Bool :=
  text1 == text2

/-- One extracted positioned text line, as produced by
`extract_lines_with_bbox` and then enriched with a `norm` key by
`compare_pdfs_and_build_pairs`. -/
structure PdfLine where
  page : Int
  line_no : Nat
  text : String
  x0 : ℚ
  y0 : ℚ
  x1 : ℚ
  y1 : ℚ
  norm : String
deriving DecidableEq, Repr

/-- Python `max(candidates, key=lambda x: x[0])` starting from a current
maximum: replace the current value only on a strictly larger key, so the
first element attaining the maximal key wins. -/
def pyMaxFrom (cur : ℚ × PdfLine) : List (ℚ × PdfLine) → ℚ × PdfLine
  | [] => cur
  | y :: ys => pyMaxFrom (if y.1 > cur.1 then y else cur) ys

/-- Python `max(candidates, key=lambda x: x[0])` on a possibly empty list. -/
def pyMax : List (ℚ × PdfLine) → Option (ℚ × PdfLine)
  | [] => none
  | x :: xs => some (pyMaxFrom x xs)

/-- `find_best_match(gen_line, orig_lines, y_tolerance, page_window)` from
`compare.py`: score the original lines within the page window and the
page-distance-widened y tolerance; if none qualify, score all original
lines; return the first candidate of maximal score, or `(0, none)` when
there is no candidate at all. -/
def find_best_match (gen_line : PdfLine) (orig_lines : List PdfLine)
    (y_tolerance : ℚ) (page_window : Int) : ℚ × Option PdfLine :=
  let candidates := orig_lines.filterMap (fun o =>
    if |o.page - gen_line.page| > page_window then none
    else if |o.y0 - gen_line.y0| >
        y_tolerance + 5 * ((|o.page - gen_line.page| : Int) : ℚ) then none
    else some (similarity_score gen_line.norm o.norm, o))
  let candidates :=
    if candidates.isEmpty then
      orig_lines.map (fun o => (similarity_score gen_line.norm o.norm, o))
    else candidates
  match pyMax candidates with
  | some so => (so.1, some so.2)
  | none => (0, none)

/-! ## Embedding of `difflib.SequenceMatcher` (CPython, no junk predicate)

`word_level_diff_html` calls `difflib.SequenceMatcher(a=a_tokens,
b=b_tokens)` with no `isjunk` predicate, so the junk set is empty; the
`autojunk` heuristic purges "popular" elements from the index `b2j` when
`b` has at least 200 elements. -/

/-- The elements purged from `b2j` by the `autojunk` heuristic: when `b`
has at least 200 elements, the elements occurring more than
`len(b) // 100 + 1` times. -/
def popularSet (b : List String) : List String :=
  if 200 ≤ b.length then
    (firstDedup b).filter (fun x => b.length / 100 + 1 < b.count x)
  else []

/-- Length of the diagonal chain of matches ending at positions `(i, j)`:
the value `j2len[j]` that `find_longest_match` computes at row `i`.  Each
chained pair needs `a[i'] = b[j']`, with `b[j']` not purged from `b2j`,
and stays inside the `alo`/`blo` bounds. -/
def backRun (a b P : List String) (alo blo : Nat) : Nat → Nat → Nat
  | i, j =>
    if alo ≤ i ∧ blo ≤ j ∧ i < a.length ∧ j < b.length ∧
        a.getD i "" = b.getD j "" ∧ a.getD i "" ∉ P then
      if i = 0 ∨ j = 0 then 1
      else 1 + backRun a b P alo blo (i - 1) (j - 1)
    else 0
termination_by i _ => i
decreasing_by omega

/-- The best-match scan of `find_longest_match`: walk end positions
`i ∈ [alo, ahi)`, `j ∈ [blo, bhi)` in order and keep the first strictly
larger chain, recorded as `(besti, bestj, bestsize)` (start positions). -/
def flmCore (a b P : List String) (alo ahi blo bhi : Nat) : Nat × Nat × Nat :=
  (List.range' alo (ahi - alo)).foldl (fun best i =>
    (List.range' blo (bhi - blo)).foldl (fun best j =>
      let k := backRun a b P alo blo i j
      if best.2.2 < k then (i + 1 - k, j + 1 - k, k) else best) best)
    (alo, blo, 0)

/-- The first `while` loop after the scan in `find_longest_match`: how far
the best match extends to the left over plain element equality (the junk
set is empty, so `isbjunk` is always false). -/
def extendLeftLen (a b : List String) (alo blo : Nat) : Nat → Nat → Nat
  | i, j =>
    if alo < i ∧ blo < j ∧ a.getD (i - 1) "" = b.getD (j - 1) "" then
      1 + extendLeftLen a b alo blo (i - 1) (j - 1)
    else 0
termination_by i _ => i
decreasing_by omega

/-- The second `while` loop after the scan in `find_longest_match`: how
far the best match extends to the right over plain element equality. -/
def extendRightLen (a b : List String) (ahi bhi : Nat) (i j : Nat) : Nat :=
  if i < ahi ∧ j < bhi ∧ a.getD i "" = b.getD j "" then
    1 + extendRightLen a b ahi bhi (i + 1) (j + 1)
  else 0
termination_by ahi - i
decreasing_by omega

/-- `SequenceMatcher.find_longest_match(alo, ahi, blo, bhi)`.  The third
and fourth `while` loops of the CPython source extend over junk-adjacent
elements and never fire here because the junk set is empty. -/
def findLongestMatch (a b P : List String) (alo ahi blo bhi : Nat) :
    Nat × Nat × Nat :=
  let m := flmCore a b P alo ahi blo bhi
  let dl := extendLeftLen a b alo blo m.1 m.2.1
  let i := m.1 - dl
  let j := m.2.1 - dl
  let k := m.2.2 + dl
  (i, j, k + extendRightLen a b ahi bhi (i + k) (j + k))

/-- The recursive block collection of `get_matching_blocks`, produced
directly in sorted order (the CPython version uses an explicit queue and
sorts afterwards).  The recursion guards are the source's
`alo < i and blo < j` / `i+k < ahi and j+k < bhi` tests, strengthened
with bound conjuncts that always hold for `find_longest_match` results
(they are needed to justify termination and never change the output). -/
def matchingBlocks (a b P : List String) (alo ahi blo bhi : Nat) :
    List (Nat × Nat × Nat) :=
  match findLongestMatch a b P alo ahi blo bhi with
  | (i, j, k) =>
  if hk : k = 0 then []
  else
    (if hL : alo < i ∧ blo < j ∧ i + k ≤ ahi ∧ j + k ≤ bhi then
      matchingBlocks a b P alo i blo j
    else []) ++
    (i, j, k) ::
    (if hR : i + k < ahi ∧ j + k < bhi ∧ alo ≤ i ∧ blo ≤ j then
      matchingBlocks a b P (i + k) ahi (j + k) bhi
    else [])
termination_by (ahi - alo) + (bhi - blo)
decreasing_by
  · omega
  · omega

/-- The adjacency-merging pass at the end of `get_matching_blocks`,
carrying the current block `(i1, j1, k1)` (initially `(0, 0, 0)`). -/
def mergeLoop : Nat × Nat × Nat → List (Nat × Nat × Nat) → List (Nat × Nat × Nat)
  | (i1, j1, k1), [] => if k1 = 0 then [] else [(i1, j1, k1)]
  | (i1, j1, k1), (i2, j2, k2) :: rest =>
    if i1 + k1 = i2 ∧ j1 + k1 = j2 then mergeLoop (i1, j1, k1 + k2) rest
    else if k1 = 0 then mergeLoop (i2, j2, k2) rest
    else (i1, j1, k1) :: mergeLoop (i2, j2, k2) rest

/-- `SequenceMatcher.get_matching_blocks()`: recursive block collection,
adjacency merge, and the terminating sentinel `(len(a), len(b), 0)`. -/
def getMatchingBlocks (a b : List String) : List (Nat × Nat × Nat) :=
  mergeLoop (0, 0, 0) (matchingBlocks a b (popularSet b) 0 a.length 0 b.length) ++
    [(a.length, b.length, 0)]

/-- One opcode `(tag, i1, i2, j1, j2)` of `SequenceMatcher.get_opcodes()`. -/
structure Opcode where
  tag : String
  a1 : Nat
  a2 : Nat
  b1 : Nat
  b2 : Nat
deriving DecidableEq, Repr

/-- The loop of `get_opcodes`: walk the matching blocks, emitting a
`replace`/`delete`/`insert` opcode for the gap before each block and an
`equal` opcode for each non-sentinel block. -/
def opcodeLoop : Nat → Nat → List (Nat × Nat × Nat) → List Opcode
  | _, _, [] => []
  | i, j, (ai, bj, size) :: rest =>
    (if i < ai ∧ j < bj then [⟨"replace", i, ai, j, bj⟩]
    else if i < ai then [⟨"delete", i, ai, j, bj⟩]
    else if j < bj then [⟨"insert", i, ai, j, bj⟩]
    else []) ++
    (if size ≠ 0 then [⟨"equal", ai, ai + size, bj, bj + size⟩] else []) ++
    opcodeLoop (ai + size) (bj + size) rest

/-- `SequenceMatcher.get_opcodes()` for token lists `a` and `b`. -/
def getOpcodes (a b : List String) : List Opcode :=
  opcodeLoop 0 0 (getMatchingBlocks a b)

/-- Python `a_tokens[i1:i2]` followed by `" ".join(...)`. -/
def sliceJoin (ts : List String) (i1 i2 : Nat) : String :=
  pyJoin " " ((ts.take i2).drop i1)

/-- The `or "[empty]"` fallback on a joined run in the `replace` branch of
`word_level_diff_html`. -/
def orEmpty (s : String) : String :=
  if s = "" then "[empty]" else s

/-- What one opcode appends to `a_out` (the generated side) in the loop of
`word_level_diff_html`: `equal` and `delete` append the joined slice (the
latter wrapped), `replace` appends the wrapped slice with the
`or "[empty]"` fallback, `insert` appends nothing. -/
def diffGenEntry (aT : List String) (op : Opcode) : Option String :=
  if op.tag = "equal" then some (sliceJoin aT op.a1 op.a2)
  else if op.tag = "replace" then
    some ("<span class=\"error replace-generated\">" ++
      orEmpty (sliceJoin aT op.a1 op.a2) ++ "</span>")
  else if op.tag = "delete" then
    some ("<span class=\"error deleted-from-generated\">" ++
      sliceJoin aT op.a1 op.a2 ++ "</span>")
  else none

/-- What one opcode appends to `b_out` (the original side) in the loop of
`word_level_diff_html`. -/
def diffOrigEntry (bT : List String) (op : Opcode) : Option String :=
  if op.tag = "equal" then some (sliceJoin bT op.b1 op.b2)
  else if op.tag = "replace" then
    some ("<span class=\"error replace-original\">" ++
      orEmpty (sliceJoin bT op.b1 op.b2) ++ "</span>")
  else if op.tag = "insert" then
    some ("<span class=\"error added-to-original\">" ++
      sliceJoin bT op.b1 op.b2 ++ "</span>")
  else none

/-- One iteration of the opcode loop of `word_level_diff_html`, appending
the two sides' entries. -/
def diffStep (aT bT : List String) (acc : List String × List String)
    (op : Opcode) : List String × List String :=
  (acc.1 ++ (diffGenEntry aT op).toList, acc.2 ++ (diffOrigEntry bT op).toList)

/-- `word_level_diff_html(a, b)` from `compare.py`: handle the empty
cases, split both texts into whitespace tokens, and render the difflib
opcodes into the two annotated sides, joining each side's non-empty
fragments with spaces. -/
def word_level_diff_html (a b : String) : String × String :=
  if a = "" ∧ b = "" then ("", "")
  else if a = "" then
    ("", "<span class=\"error missing-in-generated\">" ++ b ++ "</span>")
  else if b = "" then
    ("<span class=\"error missing-in-original\">" ++ a ++ "</span>", "")
  else
    let aT := pySplit a
    let bT := pySplit b
    let outs := (getOpcodes aT bT).foldl (diffStep aT bT) ([], [])
    (pyJoin " " (outs.1.filter (fun s => s ≠ "")),
     pyJoin " " (outs.2.filter (fun s => s ≠ "")))

/-! ## The comparison run (`compare_pdfs_and_build_pairs`)

The function is modelled from the extraction boundary inwards: it takes
the two extracted line lists (the results of `extract_lines_with_bbox`)
instead of the PDF paths.  The pandas `DataFrame` built from the rows is
presentational and omitted; the function returns the row list and the
summary. -/

/-- One per-generated-line result row (the Python per-row dict). -/
structure Row where
  gen_page : Int
  gen_line_no : Nat
  gen_text : String
  gen_html : String
  orig_page : Option Int
  orig_line_no : Option Nat
  orig_text : Option String
  orig_html : String
  similarity : ℚ
  char_edit_distance : Nat
  y_delta : Option ℚ
  matched : Bool
  error_type : String
deriving DecidableEq, Repr

/-- The `error_breakdown` sub-dict of the summary. -/
structure ErrorBreakdown where
  «matches» : Nat
  mismatches : Nat
  no_matches : Nat
deriving DecidableEq, Repr

/-- The summary dict of `compare_pdfs_and_build_pairs`. -/
structure Summary where
  gen_lines : Nat
  orig_lines : Nat
  matched_lines : Nat
  char_accuracy : ℚ
  line_accuracy : ℚ
  total_char_diffs : Nat
  total_chars : Nat
  error_breakdown : ErrorBreakdown
deriving DecidableEq, Repr

/-- Python `round(x, 4)` on an exact rational value: round to the nearest
multiple of `1/10000`, ties to even. -/
def round4 (x : ℚ) : ℚ :=
  ((if x * 10000 - (⌊x * 10000⌋ : ℚ) < 1 / 2 then ⌊x * 10000⌋
    else if 1 / 2 < x * 10000 - (⌊x * 10000⌋ : ℚ) then ⌊x * 10000⌋ + 1
    else if ⌊x * 10000⌋ % 2 = 0 then ⌊x * 10000⌋
    else ⌊x * 10000⌋ + 1 : Int) : ℚ) / 10000

/-- Adding the `norm` key to an extracted line
(`o['norm'] = normalize_text(o['text'])`). -/
def withNorm (l : PdfLine) : PdfLine :=
  { l with norm := normalize_text l.text }

/-- The body of the per-generated-line loop of
`compare_pdfs_and_build_pairs`: the produced row together with its
contributions to `total_chars`, `total_diff_chars` and `matched_lines`. -/
def processLine (origLines : List PdfLine) (threshold : ℚ) (g : PdfLine) :
    Row × Nat × Nat × Nat :=
  match find_best_match g origLines 12 1 with
  | (score, some o) =>
    let ed := lev g.text.data o.text.data
    let matched : Bool := decide (threshold ≤ score)
    let htmls := word_level_diff_html g.text o.text
    ({ gen_page := g.page, gen_line_no := g.line_no, gen_text := g.text,
       gen_html := htmls.1, orig_page := some o.page,
       orig_line_no := some o.line_no, orig_text := some o.text,
       orig_html := htmls.2, similarity := score, char_edit_distance := ed,
       y_delta := some (g.y0 - o.y0), matched := matched,
       error_type := if matched then "match" else "mismatch" },
     max g.text.length (max o.text.length 1), ed, if matched then 1 else 0)
  | (_, none) =>
    ({ gen_page := g.page, gen_line_no := g.line_no, gen_text := g.text,
       gen_html := "<span class=\"error no-match\">" ++ g.text ++ "</span>",
       orig_page := none, orig_line_no := none, orig_text := none,
       orig_html := "", similarity := 0,
       char_edit_distance := g.text.length, y_delta := none,
       matched := false, error_type := "no_match" },
     max g.text.length 1, g.text.length, 0)

/-- The per-generated-line loop: rows in input order together with the
accumulated `(total_chars, total_diff_chars, matched_lines)`. -/
def buildRows (origLines : List PdfLine) (threshold : ℚ) :
    List PdfLine → List Row × Nat × Nat × Nat
  | [] => ([], 0, 0, 0)
  | g :: gs =>
    let r := processLine origLines threshold g
    let rest := buildRows origLines threshold gs
    (r.1 :: rest.1, r.2.1 + rest.2.1, r.2.2.1 + rest.2.2.1, r.2.2.2 + rest.2.2.2)

/-- `compare_pdfs_and_build_pairs` from `compare.py`, from the extracted
line lists onwards.  `y_tolerance=12` and `page_window=1` are the fixed
arguments of the `find_best_match` call site. -/
def compare_pdfs_and_build_pairs (origRaw genRaw : List PdfLine)
    (similarity_threshold : ℚ) : List Row × Summary :=
  let origLines := origRaw.map withNorm
  let genLines := genRaw.map withNorm
  match buildRows origLines similarity_threshold genLines with
  | (rows, total_chars, total_diff_chars, matched_lines) =>
    let char_accuracy : ℚ :=
      if total_chars ≠ 0 then 1 - (total_diff_chars : ℚ) / (total_chars : ℚ)
      else 0
    let line_accuracy : ℚ :=
      if genLines.length ≠ 0 then (matched_lines : ℚ) / (genLines.length : ℚ)
      else 0
    (rows,
     { gen_lines := genLines.length, orig_lines := origLines.length,
       matched_lines := matched_lines,
       char_accuracy := round4 char_accuracy,
       line_accuracy := round4 line_accuracy,
       total_char_diffs := total_diff_chars, total_chars := total_chars,
       error_breakdown :=
        { «matches» := (rows.filter (fun r => r.error_type = "match")).length,
          mismatches := (rows.filter (fun r => r.error_type = "mismatch")).length,
          no_matches := (rows.filter (fun r => r.error_type = "no_match")).length } })

/-! ## Specification-side definitions

These definitions follow the WORDS of the spec/claims (rather than the
source); the claim theorems relate them to the source embeddings above. -/

/-- Following the claim's words: the original lines whose page differs
from the generated line's page by at most `pageWindow` and whose `y0`
differs by at most `yTolerance + 5 * pageDelta`. -/
def spatialCandidates (g : PdfLine) (origLines : List PdfLine)
    (yTol : ℚ) (pw : Int) : List PdfLine :=
  origLines.filter (fun oL => decide (|oL.page - g.page| ≤ pw ∧
    |oL.y0 - g.y0| ≤ yTol + 5 * ((|oL.page - g.page| : Int) : ℚ)))

/-- Following the claim's words: the candidate pool actually scored — the
spatially constrained candidates, or all of `origLines` when that set is
empty. -/
def matchPool (g : PdfLine) (origLines : List PdfLine)
    (yTol : ℚ) (pw : Int) : List PdfLine :=
  if spatialCandidates g origLines yTol pw = [] then origLines
  else spatialCandidates g origLines yTol pw

/-- Following the claim's words: the contribution of one generated line to
`total_chars` — `max(len(genText), len(origText), 1)` when a match was
found, `max(len(genText), 1)` otherwise. -/
def spec_line_chars (origLines : List PdfLine) (g : PdfLine) : Nat :=
  match (find_best_match g origLines 12 1).2 with
  | some o => max g.text.length (max o.text.length 1)
  | none => max g.text.length 1

/-- Following the claim's words: the contribution of one generated line to
`total_diff_chars` — the character edit distance of the raw texts when a
match was found, the whole generated length otherwise. -/
def spec_line_diff_chars (origLines : List PdfLine) (g : PdfLine) : Nat :=
  match (find_best_match g origLines 12 1).2 with
  | some o => lev g.text.data o.text.data
  | none => g.text.length

/-- Following the claim's words: whether one generated line counts into
`matched_line_count` (it found an original line and scored at least the
threshold). -/
def spec_line_matched (origLines : List PdfLine) (threshold : ℚ)
    (g : PdfLine) : Nat :=
  match find_best_match g origLines 12 1 with
  | (score, some _) => if threshold ≤ score then 1 else 0
  | (_, none) => 0

/-- Total number of tokens passed through by the `equal` runs of an
opcode list. -/
def equalTotal (ops : List Opcode) : Nat :=
  (ops.map (fun op => if op.tag = "equal" then op.a2 - op.a1 else 0)).sum

/-- Following the claim's words: an opcode alignment is LCS-based when its
equal runs pass through exactly as many tokens as a longest common
subsequence of the two token sequences. -/
def IsLCSAligned (aT bT : List String) (ops : List Opcode) : Prop :=
  equalTotal ops = lcsLen aT bT

/-- Following the claim's words: the generated-side rendering of one
opcode run — equal runs pass through verbatim, replace runs get the
generated-side "replaced" marker, delete runs the "deleted" marker, and
insert runs contribute nothing on the generated side. -/
def specGenRun (aT : List String) (op : Opcode) : Option String :=
  if op.tag = "equal" then some (sliceJoin aT op.a1 op.a2)
  else if op.tag = "replace" then
    some ("<span class=\"error replace-generated\">" ++
      sliceJoin aT op.a1 op.a2 ++ "</span>")
  else if op.tag = "delete" then
    some ("<span class=\"error deleted-from-generated\">" ++
      sliceJoin aT op.a1 op.a2 ++ "</span>")
  else none

/-- Following the claim's words: the original-side rendering of one opcode
run — equal runs pass through verbatim, replace runs get the
original-side "replaced" marker, insert runs the "added" marker, and
delete runs contribute nothing on the original side. -/
def specOrigRun (bT : List String) (op : Opcode) : Option String :=
  if op.tag = "equal" then some (sliceJoin bT op.b1 op.b2)
  else if op.tag = "replace" then
    some ("<span class=\"error replace-original\">" ++
      sliceJoin bT op.b1 op.b2 ++ "</span>")
  else if op.tag = "insert" then
    some ("<span class=\"error added-to-original\">" ++
      sliceJoin bT op.b1 op.b2 ++ "</span>")
  else none

/-- Following the claim's words: one output side is the space-joined
concatenation of its runs' renderings. -/
def specSideRender (f : Opcode → Option String) (ops : List Opcode) : String :=
  pyJoin " " (ops.filterMap f)

/-- Well-formedness of one opcode over token lists of lengths `la`, `lb`:
the tag is one of the four difflib tags and the ranges it renders are
non-empty and in bounds. -/
def OpcodeWF (la lb : Nat) (op : Opcode) : Prop :=
  (op.tag = "replace" ∧ op.a1 < op.a2 ∧ op.a2 ≤ la ∧ op.b1 < op.b2 ∧ op.b2 ≤ lb) ∨
  (op.tag = "delete" ∧ op.a1 < op.a2 ∧ op.a2 ≤ la) ∨
  (op.tag = "insert" ∧ op.b1 < op.b2 ∧ op.b2 ≤ lb) ∨
  (op.tag = "equal" ∧ op.a1 < op.a2 ∧ op.a2 ≤ la ∧ op.b1 < op.b2 ∧ op.b2 ≤ lb)

/-- The matching-block lists produced for a range `[ca, hiA) × [cb, hiB)`
are cursor-chained: each block starts at or after the cursor and ends
within the bounds, and the cursor advances past it. -/
def BlocksChain (hiA hiB : Nat) : Nat → Nat → List (Nat × Nat × Nat) → Prop
  | _, _, [] => True
  | ca, cb, (i, j, k) :: rest =>
    ca ≤ i ∧ cb ≤ j ∧ i + k ≤ hiA ∧ j + k ≤ hiB ∧
      BlocksChain hiA hiB (i + k) (j + k) rest

/-! ## Basic lemmas about the similarity scorer and edit distance -/

theorem lcsLen_le_left {α : Type} [DecidableEq α] :
    ∀ a b : List α, lcsLen a b ≤ a.length
  | [], _ => by simp [lcsLen]
  | _ :: _, [] => by simp [lcsLen]
  | x :: xs, y :: ys => by
    rw [lcsLen]
    split
    · simpa using lcsLen_le_left xs ys
    · exact max_le (lcsLen_le_left (x :: xs) ys)
        (le_trans (lcsLen_le_left xs (y :: ys)) (by simp))
termination_by a b => a.length + b.length

theorem lcsLen_le_right {α : Type} [DecidableEq α] :
    ∀ a b : List α, lcsLen a b ≤ b.length
  | [], _ => by simp [lcsLen]
  | _ :: _, [] => by simp [lcsLen]
  | x :: xs, y :: ys => by
    rw [lcsLen]
    split
    · simpa using lcsLen_le_right xs ys
    · exact max_le (le_trans (lcsLen_le_right (x :: xs) ys) (by simp))
        (lcsLen_le_right xs (y :: ys))
termination_by a b => a.length + b.length

theorem fuzzRatio_mem (x y : String) :
    0 ≤ fuzzRatio x y ∧ fuzzRatio x y ≤ 100 := by
  rw [fuzzRatio]
  split
  · norm_num
  · rename_i hne
    set lx := x.length with hlx
    set ly := y.length with hly
    have hpos : (0 : ℚ) < (lx : ℚ) + (ly : ℚ) := by
      have : 0 < lx + ly := Nat.pos_of_ne_zero hne
      push_cast
      exact_mod_cast this
    have hd0 : (0 : ℚ) ≤ ((lx + ly - 2 * lcsLen x.data y.data : Nat) : ℚ) := by
      positivity
    have hdle : ((lx + ly - 2 * lcsLen x.data y.data : Nat) : ℚ) ≤ (lx : ℚ) + (ly : ℚ) := by
      have h1 : lx + ly - 2 * lcsLen x.data y.data ≤ lx + ly := Nat.sub_le _ _
      have := (Nat.cast_le (α := ℚ)).2 h1
      push_cast at this ⊢
      linarith
    constructor
    · have hle1 : ((lx + ly - 2 * lcsLen x.data y.data : Nat) : ℚ) / ((lx : ℚ) + (ly : ℚ)) ≤ 1 := by
        rw [div_le_one hpos]
        exact hdle
      nlinarith
    · have h0 : 0 ≤ ((lx + ly - 2 * lcsLen x.data y.data : Nat) : ℚ) / ((lx : ℚ) + (ly : ℚ)) :=
        div_nonneg hd0 (le_of_lt hpos)
      nlinarith

theorem similarity_score_mem (a b : String) :
    0 ≤ similarity_score a b ∧ similarity_score a b ≤ 100 := by
  rw [similarity_score]
  split
  · norm_num
  · split
    · norm_num
    · exact fuzzRatio_mem _ _

theorem lev_le_max : ∀ a b : List Char, lev a b ≤ max a.length b.length
  | [], b => by simp [lev]
  | a :: as, [] => by simp [lev]
  | a :: as, b :: bs => by
    rw [lev]
    split
    · have := lev_le_max as bs
      simp only [List.length_cons]
      omega
    · have h1 := lev_le_max as bs
      have h2 : 1 + min (lev as (b :: bs)) (min (lev (a :: as) bs) (lev as bs)) ≤
          1 + lev as bs := by
        have : min (lev as (b :: bs)) (min (lev (a :: as) bs) (lev as bs)) ≤ lev as bs := by
          exact le_trans (min_le_right _ _) (min_le_right _ _)
        omega
      simp only [List.length_cons]
      omega
termination_by a b => a.length + b.length

/-! ## Lemmas about the Python `max` embedding -/

theorem pyMaxFrom_spec : ∀ (l : List (ℚ × PdfLine)) (cur : ℚ × PdfLine),
    ∃ pre post, cur :: l = pre ++ pyMaxFrom cur l :: post ∧
      (∀ y ∈ pre, y.1 < (pyMaxFrom cur l).1) ∧
      (∀ y ∈ cur :: l, y.1 ≤ (pyMaxFrom cur l).1)
  | [], cur => ⟨[], [], rfl, by simp, by simp [pyMaxFrom]⟩
  | y :: ys, cur => by
    rw [pyMaxFrom]
    by_cases h : y.1 > cur.1
    · simp only [if_pos h]
      obtain ⟨pre, post, hdec, hpre, hall⟩ := pyMaxFrom_spec ys y
      refine ⟨cur :: pre, post, by rw [List.cons_append, ← hdec], ?_, ?_⟩
      · intro z hz
        rcases List.mem_cons.1 hz with hz | hz
        · subst hz
          exact lt_of_lt_of_le h (hall y (List.mem_cons_self _ _))
        · exact hpre z hz
      · intro z hz
        rcases List.mem_cons.1 hz with hz | hz
        · subst hz
          exact le_of_lt (lt_of_lt_of_le h (hall y (List.mem_cons_self _ _)))
        · exact hall z hz
    · simp only [if_neg h]
      push_neg at h
      obtain ⟨pre, post, hdec, hpre, hall⟩ := pyMaxFrom_spec ys cur
      cases pre with
      | nil =>
        simp only [List.nil_append] at hdec
        have hm : pyMaxFrom cur ys = cur := (List.cons_eq_cons.1 hdec).1.symm
        refine ⟨[], y :: ys, by simp [hm], by simp, ?_⟩
        intro z hz
        rcases List.mem_cons.1 hz with hz | hz
        · subst hz; rw [hm]
        · rcases List.mem_cons.1 hz with hz | hz
          · subst hz; rw [hm]; exact h
          · exact hall z (List.mem_cons_of_mem _ hz)
      | cons c pre' =>
        have hc1 : c = cur := (List.cons_eq_cons.1 hdec).1.symm
        have hys : ys = pre' ++ pyMaxFrom cur ys :: post := (List.cons_eq_cons.1 hdec).2
        have hcur_lt : cur.1 < (pyMaxFrom cur ys).1 := by
          apply hpre
          rw [hc1]
          exact List.mem_cons_self _ _
        refine ⟨cur :: y :: pre', post, ?_, ?_, ?_⟩
        · show cur :: y :: ys = cur :: y :: (pre' ++ pyMaxFrom cur ys :: post)
          exact congrArg (fun t => cur :: y :: t) hys
        · intro z hz
          rcases List.mem_cons.1 hz with hz | hz
          · subst hz; exact hcur_lt
          · rcases List.mem_cons.1 hz with hz | hz
            · subst hz; exact lt_of_le_of_lt h hcur_lt
            · exact hpre z (List.mem_cons_of_mem _ hz)
        · intro z hz
          rcases List.mem_cons.1 hz with hz | hz
          · subst hz; exact le_of_lt hcur_lt
          · rcases List.mem_cons.1 hz with hz | hz
            · subst hz; exact le_of_lt (lt_of_le_of_lt h hcur_lt)
            · exact hall z (List.mem_cons_of_mem _ hz)

theorem pyMax_spec (x : ℚ × PdfLine) (xs : List (ℚ × PdfLine)) :
    ∃ m, pyMax (x :: xs) = some m ∧
      ∃ pre post, x :: xs = pre ++ m :: post ∧
        (∀ y ∈ pre, y.1 < m.1) ∧ (∀ y ∈ x :: xs, y.1 ≤ m.1) := by
  obtain ⟨pre, post, hdec, hpre, hall⟩ := pyMaxFrom_spec xs x
  exact ⟨pyMaxFrom x xs, rfl, pre, post, hdec, hpre, hall⟩

theorem map_decomp {α β : Type} (f : α → β) :
    ∀ (l : List α) (pre : List β) (m : β) (post : List β),
      l.map f = pre ++ m :: post →
      ∃ pre' x post', l = pre' ++ x :: post' ∧ pre = pre'.map f ∧
        m = f x ∧ post = post'.map f
  | [], pre, m, post, h => by simp at h
  | a :: l', pre, m, post, h => by
    cases pre with
    | nil =>
      simp only [List.map_cons, List.nil_append] at h
      obtain ⟨h1, h2⟩ := List.cons_eq_cons.1 h
      exact ⟨[], a, l', by simp, rfl, h1.symm, h2.symm⟩
    | cons p ps =>
      simp only [List.map_cons, List.cons_append] at h
      obtain ⟨h1, h2⟩ := List.cons_eq_cons.1 h
      obtain ⟨pre'', x, post'', hl, hps, hm, hpost⟩ := map_decomp f l' ps m post h2
      exact ⟨a :: pre'', x, post'', by rw [hl]; rfl,
        by simp [hps, h1.symm], hm, hpost⟩

/-! ## Structure of `find_best_match` -/

theorem find_best_match_candidates (g : PdfLine) (origLines : List PdfLine)
    (yTol : ℚ) (pw : Int) :
    origLines.filterMap (fun o =>
      if |o.page - g.page| > pw then none
      else if |o.y0 - g.y0| > yTol + 5 * ((|o.page - g.page| : Int) : ℚ) then none
      else some (similarity_score g.norm o.norm, o)) =
    (spatialCandidates g origLines yTol pw).map
      (fun o => (similarity_score g.norm o.norm, o)) := by
  simp only [spatialCandidates]
  induction origLines with
  | nil => rfl
  | cons o os ih =>
    rw [List.filterMap_cons]
    by_cases h1 : pw < |o.page - g.page|
    · rw [if_pos h1, List.filter_cons_of_neg (by
        simp only [decide_eq_true_eq]
        rintro ⟨hA, -⟩
        exact absurd hA (not_le.2 h1)), ih]
    · by_cases h2 : yTol + 5 * ((|o.page - g.page| : Int) : ℚ) < |o.y0 - g.y0|
      · rw [if_neg h1, if_pos h2, List.filter_cons_of_neg (by
          simp only [decide_eq_true_eq]
          rintro ⟨-, hB⟩
          exact absurd hB (not_le.2 h2)), ih]
      · rw [if_neg h1, if_neg h2, List.filter_cons_of_pos (by
          simp only [decide_eq_true_eq]
          exact ⟨not_lt.1 h1, not_lt.1 h2⟩),
          List.map_cons, ih]

theorem find_best_match_eq_pool (g : PdfLine) (origLines : List PdfLine)
    (yTol : ℚ) (pw : Int) :
    find_best_match g origLines yTol pw =
      match pyMax ((matchPool g origLines yTol pw).map
          (fun o => (similarity_score g.norm o.norm, o))) with
      | some so => (so.1, some so.2)
      | none => (0, none) := by
  rw [find_best_match]
  simp only [find_best_match_candidates]
  rw [matchPool]
  by_cases hsp : spatialCandidates g origLines yTol pw = []
  · simp [hsp]
  · have : ((spatialCandidates g origLines yTol pw).map
        (fun o => (similarity_score g.norm o.norm, o))).isEmpty = false := by
      simp [List.isEmpty_iff, hsp]
    simp [hsp, this]

/-- C4: `find_best_match` returns `(0, none)` exactly when `origLines` is
empty; whenever `origLines` is non-empty some original line is returned
(the global fallback guarantees a non-empty candidate set). -/
theorem find_best_match_total (g : PdfLine) (origLines : List PdfLine)
    (yTol : ℚ) (pw : Int) :
    (origLines = [] → find_best_match g origLines yTol pw = (0, none)) ∧
    (origLines ≠ [] → ∃ o, (find_best_match g origLines yTol pw).2 = some o) := by
  constructor
  · intro h
    subst h
    rfl
  · intro h
    rw [find_best_match_eq_pool]
    have hpool : matchPool g origLines yTol pw ≠ [] := by
      rw [matchPool]
      split
      · exact h
      · assumption
    obtain ⟨x, xs, hx⟩ := List.exists_cons_of_ne_nil hpool
    rw [hx]
    simp only [List.map_cons, pyMax]
    exact ⟨(pyMaxFrom (similarity_score g.norm x.norm, x)
      (xs.map (fun o => (similarity_score g.norm o.norm, o)))).2, rfl⟩

/-- C4 witness: concrete empty and singleton original-line sets. -/
theorem find_best_match_total_witness :
    find_best_match ⟨1, 1, "x", 0, 0, 0, 0, "hello"⟩ [] 12 1 = (0, none) ∧
    ∃ o, (find_best_match ⟨1, 1, "x", 0, 0, 0, 0, "hello"⟩
      [⟨1, 2, "y", 0, 5, 0, 0, "hello"⟩] 12 1).2 = some o :=
  ⟨(find_best_match_total _ _ 12 1).1 rfl,
   (find_best_match_total _ _ 12 1).2 (by decide)⟩

/-- C3: when `find_best_match` returns an original line, that line comes
from the spatially-constrained pool (or from all of `origLines` when that
pool is empty), carries its own similarity score, every strictly earlier
pool element scores strictly less (first-wins tie-breaking), and no pool
element scores more. -/
theorem find_best_match_maximal (g : PdfLine) (origLines : List PdfLine)
    (yTol : ℚ) (pw : Int) (s : ℚ) (o : PdfLine)
    (h : find_best_match g origLines yTol pw = (s, some o)) :
    s = similarity_score g.norm o.norm ∧
    (∃ pre post, matchPool g origLines yTol pw = pre ++ o :: post ∧
      ∀ p ∈ pre, similarity_score g.norm p.norm < s) ∧
    (∀ p ∈ matchPool g origLines yTol pw, similarity_score g.norm p.norm ≤ s) := by
  rw [find_best_match_eq_pool] at h
  cases hpool : matchPool g origLines yTol pw with
  | nil =>
    rw [hpool] at h
    simp [pyMax] at h
  | cons x xs =>
    rw [hpool] at h
    simp only [List.map_cons] at h
    obtain ⟨m, hm, pre, post, hdec, hpre, hall⟩ :=
      pyMax_spec (similarity_score g.norm x.norm, x)
        (xs.map (fun oL : PdfLine => (similarity_score g.norm oL.norm, oL)))
    rw [hm] at h
    have h' : (m.1, some m.2) = (s, some o) := h
    have hs : m.1 = s := by injection h'
    have ho' : m.2 = o := by
      have h2 : some m.2 = some o := by injection h'
      injection h2
    have hdec' : (x :: xs).map (fun oL : PdfLine =>
        (similarity_score g.norm oL.norm, oL)) = pre ++ m :: post := by
      simpa using hdec
    obtain ⟨pre', oL, post', hl, hpreeq, hmeq, _⟩ :=
      map_decomp (fun oL : PdfLine => (similarity_score g.norm oL.norm, oL))
        (x :: xs) pre m post hdec'
    have hoL : o = oL := by rw [hmeq] at ho'; exact ho'.symm
    rw [← hoL] at hmeq hl
    have hm1 : m.1 = similarity_score g.norm o.norm := by rw [hmeq]
    refine ⟨by rw [← hs, hm1], ⟨pre', post', hl, ?_⟩, ?_⟩
    · intro p hp
      have hmem : (similarity_score g.norm p.norm, p) ∈ pre := by
        rw [hpreeq]
        exact List.mem_map_of_mem _ hp
      have := hpre _ hmem
      simpa [hs] using this
    · intro p hp
      rw [hl] at hp
      have hmem : (similarity_score g.norm p.norm, p) ∈
          (pre' ++ o :: post').map
            (fun q : PdfLine => (similarity_score g.norm q.norm, q)) :=
        List.mem_map_of_mem _ hp
      rw [← hl] at hmem
      simp only [List.map_cons] at hmem
      have := hall _ hmem
      simpa [hs] using this

/-- C3 witness: a two-line original set where only the second line is
within tolerance; the spatial pool is that single line and it is
returned with its own score. -/
theorem find_best_match_maximal_witness :
    (100 : ℚ) = similarity_score "hello" "hello" ∧
    (∃ pre post, matchPool ⟨1, 1, "x", 0, 0, 0, 0, "hello"⟩
        [⟨1, 1, "far", 0, 100, 0, 0, "bye"⟩, ⟨1, 2, "y", 0, 5, 0, 0, "hello"⟩] 12 1 =
        pre ++ (⟨1, 2, "y", 0, 5, 0, 0, "hello"⟩ : PdfLine) :: post ∧
      ∀ p ∈ pre, similarity_score "hello" p.norm < (100 : ℚ)) ∧
    (∀ p ∈ matchPool ⟨1, 1, "x", 0, 0, 0, 0, "hello"⟩
        [⟨1, 1, "far", 0, 100, 0, 0, "bye"⟩, ⟨1, 2, "y", 0, 5, 0, 0, "hello"⟩] 12 1,
      similarity_score "hello" p.norm ≤ (100 : ℚ)) :=
  find_best_match_maximal ⟨1, 1, "x", 0, 0, 0, 0, "hello"⟩
    [⟨1, 1, "far", 0, 100, 0, 0, "bye"⟩, ⟨1, 2, "y", 0, 5, 0, 0, "hello"⟩]
    12 1 100 ⟨1, 2, "y", 0, 5, 0, 0, "hello"⟩ (by with_unfolding_all decide)

/-! ## Claims about the similarity scorer and the content comparator -/

/-- C8: the similarity scorer returns 100 when both inputs are empty and
0 when exactly one input is empty. -/
theorem similarity_score_empty_spec :
    similarity_score "" "" = 100 ∧
    ∀ a : String, a ≠ "" →
      similarity_score a "" = 0 ∧ similarity_score "" a = 0 := by
  refine ⟨rfl, fun a ha => ⟨?_, ?_⟩⟩
  · rw [similarity_score, if_neg (by simp [ha]), if_pos (Or.inr rfl)]
  · rw [similarity_score, if_neg (by simp [ha]), if_pos (Or.inl rfl)]

/-- C8 witness: the scorer evaluated at a concrete non-empty string. -/
theorem similarity_score_empty_witness :
    similarity_score "x" "" = 0 ∧ similarity_score "" "x" = 0 :=
  similarity_score_empty_spec.2 "x" (by decide)

/-- C1 counterexample: on word lists that are equal as multisets of
lowercased words but differently ordered, `compare_pdfs_content_only`
returns `false`, so it is not the multiset comparison the claim states. -/
theorem content_only_counterexample :
    ¬ ((compare_pdfs_content_only ["b", "a"] ["a", "b"] = true) ↔
      (["b", "a"].map String.toLower).Perm (["a", "b"].map String.toLower)) := by
  with_unfolding_all decide

/-- C1 amended: `compare_pdfs_content_only` returns `true` iff the two
extracted word sequences are equal as ordered, case-sensitive lists. -/
theorem content_only_eq_iff (text1 text2 : List String) :
    compare_pdfs_content_only text1 text2 = true ↔ text1 = text2 := by
  simp [compare_pdfs_content_only]

/-! ## Lemmas about `firstDedup` and the content accuracy function -/

theorem mem_firstDedup : ∀ (l : List String) (x : String),
    x ∈ firstDedup l ↔ x ∈ l
  | [], x => by simp [firstDedup]
  | a :: xs, x => by
    rw [firstDedup]
    constructor
    · intro hx
      rcases List.mem_cons.1 hx with hx | hx
      · exact hx ▸ List.mem_cons_self _ _
      · have := (mem_firstDedup _ x).1 hx
        exact List.mem_cons_of_mem _ (List.mem_of_mem_filter this)
    · intro hx
      rcases List.mem_cons.1 hx with hx | hx
      · exact hx ▸ List.mem_cons_self _ _
      · by_cases hxa : x = a
        · exact hxa ▸ List.mem_cons_self _ _
        · refine List.mem_cons_of_mem _ ((mem_firstDedup _ x).2 ?_)
          exact List.mem_filter.2 ⟨hx, by simp [hxa]⟩
termination_by l => l.length
decreasing_by
  all_goals
    simp only [List.length_cons]
    exact Nat.lt_succ_of_le (List.length_filter_le _ _)

theorem firstDedup_nodup : ∀ l : List String, (firstDedup l).Nodup
  | [] => by simp [firstDedup]
  | a :: xs => by
    rw [firstDedup]
    refine List.nodup_cons.2 ⟨?_, firstDedup_nodup _⟩
    intro ha
    have hfil := List.mem_filter.1 ((mem_firstDedup _ a).1 ha)
    exact absurd hfil.2 (by simp)
termination_by l => l.length
decreasing_by
  simp only [List.length_cons]
  exact Nat.lt_succ_of_le (List.length_filter_le _ _)

theorem firstDedup_toFinset (l : List String) :
    (firstDedup l).toFinset = l.toFinset := by
  ext x
  simp [List.mem_toFinset, mem_firstDedup]

theorem firstDedup_map_sum (l : List String) (f : String → Nat) :
    ((firstDedup l).map f).sum = ∑ w ∈ l.toFinset, f w := by
  rw [← firstDedup_toFinset, List.sum_toFinset _ (firstDedup_nodup l)]

theorem contentTotalCount_eq_length (origWords : List String) :
    contentTotalCount origWords = origWords.length := by
  rw [contentTotalCount]
  rw [firstDedup_map_sum]
  rw [List.sum_toFinset_count_eq_length, List.length_map]

theorem count_flatten_replicate (f : String → Nat) :
    ∀ (keys : List String) (w : String),
      ((keys.map (fun k => List.replicate (f k) k)).flatten).count w =
        (keys.map (fun k => if k = w then f k else 0)).sum
  | [], w => by simp
  | k :: ks, w => by
    simp only [List.map_cons, List.flatten_cons, List.count_append,
      List.sum_cons, count_flatten_replicate f ks w]
    congr 1
    rw [List.count_replicate]
    simp only [beq_iff_eq]

theorem sum_if_eq_of_nodup (f : String → Nat) :
    ∀ (keys : List String), keys.Nodup → ∀ w : String,
      (keys.map (fun k => if k = w then f k else 0)).sum =
        if w ∈ keys then f w else 0
  | [], _, w => by simp
  | k :: ks, h, w => by
    obtain ⟨hk, hks⟩ := List.nodup_cons.1 h
    simp only [List.map_cons, List.sum_cons, sum_if_eq_of_nodup f ks hks w,
      List.mem_cons]
    by_cases hkw : k = w
    · subst hkw
      simp [hk]
    · have hwk : ¬ w = k := fun hh => hkw hh.symm
      simp [hkw, hwk]

/-- C7: for a non-empty original word list, `pdf_content_accuracy` returns
the capped-multiplicity match count summed over the distinct lowercased
original words, the total number of original word occurrences, the
percentage `match_count / total_count * 100`, and a missing-word list
holding each lowercased original word once per unmatched occurrence. -/
theorem pdf_content_accuracy_spec (orig gen : List String) (h : orig ≠ []) :
    (pdf_content_accuracy orig gen).2.1 =
      ∑ w ∈ (orig.map String.toLower).toFinset,
        min ((orig.map String.toLower).count w) ((gen.map String.toLower).count w) ∧
    (pdf_content_accuracy orig gen).2.2.1 = orig.length ∧
    (pdf_content_accuracy orig gen).1 =
      (((pdf_content_accuracy orig gen).2.1 : ℚ) / (orig.length : ℚ)) * 100 ∧
    ∀ w : String, (pdf_content_accuracy orig gen).2.2.2.count w =
      (orig.map String.toLower).count w -
        min ((orig.map String.toLower).count w) ((gen.map String.toLower).count w) := by
  have hunfold : pdf_content_accuracy orig gen =
      ((((firstDedup (orig.map String.toLower)).map (fun w =>
          min ((orig.map String.toLower).count w)
            ((gen.map String.toLower).count w))).sum : ℚ) /
        (contentTotalCount orig : ℚ) * 100,
       ((firstDedup (orig.map String.toLower)).map (fun w =>
          min ((orig.map String.toLower).count w)
            ((gen.map String.toLower).count w))).sum,
       contentTotalCount orig,
       ((firstDedup (orig.map String.toLower)).map (fun w =>
          List.replicate ((orig.map String.toLower).count w -
            min ((orig.map String.toLower).count w)
              ((gen.map String.toLower).count w)) w)).flatten) := by
    rw [pdf_content_accuracy, if_neg h]
  refine ⟨?_, ?_, ?_, ?_⟩
  · rw [hunfold]
    exact firstDedup_map_sum _ _
  · rw [hunfold]
    exact contentTotalCount_eq_length orig
  · rw [hunfold]
    simp only []
    rw [contentTotalCount_eq_length orig]
  · intro w
    rw [hunfold]
    simp only []
    rw [count_flatten_replicate, sum_if_eq_of_nodup _ _ (firstDedup_nodup _) w]
    by_cases hw : w ∈ orig.map String.toLower
    · rw [if_pos ((mem_firstDedup _ w).2 hw)]
    · rw [if_neg (fun hc => hw ((mem_firstDedup _ w).1 hc))]
      have : (orig.map String.toLower).count w = 0 := by
        exact List.count_eq_zero.2 hw
      omega

/-- C7 witness: the claim's concrete example, with the resulting tuple
evaluated (`accuracy ≈ 66.67%`, two matches out of three words, one
missing `"a"`). -/
theorem pdf_content_accuracy_spec_witness :
    ((pdf_content_accuracy ["a", "a", "b"] ["a", "b", "b"]).2.1 =
      ∑ w ∈ ((["a", "a", "b"].map String.toLower)).toFinset,
        min ((["a", "a", "b"].map String.toLower).count w)
          ((["a", "b", "b"].map String.toLower).count w) ∧
     (pdf_content_accuracy ["a", "a", "b"] ["a", "b", "b"]).2.2.1 = 3 ∧
     (pdf_content_accuracy ["a", "a", "b"] ["a", "b", "b"]).1 =
      (((pdf_content_accuracy ["a", "a", "b"] ["a", "b", "b"]).2.1 : ℚ) / (3 : ℚ)) * 100) ∧
    pdf_content_accuracy ["a", "a", "b"] ["a", "b", "b"] = (200 / 3, 2, 3, ["a"]) := by
  have h := pdf_content_accuracy_spec ["a", "a", "b"] ["a", "b", "b"] (by decide)
  refine ⟨⟨h.1, h.2.1, h.2.2.1⟩, by with_unfolding_all decide⟩

/-- C10: with an empty original word list `pdf_content_accuracy` returns
exactly `(0.0, 0, 0, [])` for every generated word list, and for a
non-empty original word list the divisor `sum(orig_counter.values())` of
the accuracy division is positive, so no division by zero is reachable. -/
theorem pdf_content_accuracy_empty_spec :
    (∀ gen : List String, pdf_content_accuracy [] gen = (0, 0, 0, [])) ∧
    (∀ orig : List String, orig ≠ [] → 0 < contentTotalCount orig) := by
  constructor
  · intro gen
    rfl
  · intro orig h
    rw [contentTotalCount_eq_length]
    exact List.length_pos.2 h

/-- C10 witness: concrete empty-original and non-empty-original inputs. -/
theorem pdf_content_accuracy_empty_witness :
    pdf_content_accuracy [] ["x"] = (0, 0, 0, []) ∧ 0 < contentTotalCount ["a"] :=
  ⟨pdf_content_accuracy_empty_spec.1 ["x"],
   pdf_content_accuracy_empty_spec.2 ["a"] (by decide)⟩

/-! ## Lemmas about the aggregator -/

theorem processLine_spec (origLines : List PdfLine) (thr : ℚ) (g : PdfLine) :
    (processLine origLines thr g).2.1 = spec_line_chars origLines g ∧
    (processLine origLines thr g).2.2.1 = spec_line_diff_chars origLines g ∧
    (processLine origLines thr g).2.2.2 = spec_line_matched origLines thr g := by
  rcases hfb : find_best_match g origLines 12 1 with ⟨s, oopt⟩
  cases oopt with
  | none =>
    simp [processLine, hfb, spec_line_chars, spec_line_diff_chars,
      spec_line_matched]
  | some o =>
    refine ⟨?_, ?_, ?_⟩
    · simp [processLine, hfb, spec_line_chars]
    · simp [processLine, hfb, spec_line_diff_chars]
    · simp only [processLine, hfb, spec_line_matched]
      by_cases hth : thr ≤ s
      · simp [hth]
      · simp [hth]

theorem buildRows_eq (origLines : List PdfLine) (thr : ℚ) :
    ∀ gens : List PdfLine,
      buildRows origLines thr gens =
        (gens.map (fun g => (processLine origLines thr g).1),
         (gens.map (fun g => spec_line_chars origLines g)).sum,
         (gens.map (fun g => spec_line_diff_chars origLines g)).sum,
         (gens.map (fun g => spec_line_matched origLines thr g)).sum)
  | [] => rfl
  | g :: gs => by
    rw [buildRows, buildRows_eq origLines thr gs]
    obtain ⟨h1, h2, h3⟩ := processLine_spec origLines thr g
    simp [h1, h2, h3]

theorem spec_line_diff_le_chars (origLines : List PdfLine) (g : PdfLine) :
    spec_line_diff_chars origLines g ≤ spec_line_chars origLines g := by
  rw [spec_line_chars, spec_line_diff_chars]
  cases (find_best_match g origLines 12 1).2 with
  | none =>
    simp only []
    omega
  | some o =>
    simp only []
    have h := lev_le_max g.text.data o.text.data
    have hg : g.text.data.length = g.text.length := rfl
    have ho : o.text.data.length = o.text.length := rfl
    rw [hg, ho] at h
    omega

theorem spec_line_matched_le_one (origLines : List PdfLine) (thr : ℚ)
    (g : PdfLine) : spec_line_matched origLines thr g ≤ 1 := by
  rw [spec_line_matched]
  rcases find_best_match g origLines 12 1 with ⟨s, oopt⟩
  cases oopt with
  | none => simp
  | some o =>
    simp only []
    split <;> simp

theorem sum_map_one_eq_length (l : List PdfLine) :
    (l.map (fun _ => (1 : Nat))).sum = l.length := by
  induction l with
  | nil => rfl
  | cons a l ih => simp [ih, Nat.add_comm]

theorem round4_mem {x : ℚ} (h0 : 0 ≤ x) (h1 : x ≤ 1) :
    0 ≤ round4 x ∧ round4 x ≤ 1 := by
  rw [round4]
  have hb0 : (0 : ℚ) ≤ x * 10000 := by nlinarith
  have hb1 : x * 10000 ≤ 10000 := by nlinarith
  have hf0 : (0 : Int) ≤ ⌊x * 10000⌋ := Int.floor_nonneg.2 hb0
  have hf1 : ⌊x * 10000⌋ ≤ 10000 := by
    have := Int.floor_mono (a := x * 10000) (b := (10000 : ℚ)) hb1
    simpa using this
  have hfle : (⌊x * 10000⌋ : ℚ) ≤ x * 10000 := Int.floor_le _
  have hkey : ∀ q : Int, 0 ≤ q → q ≤ 10000 → 0 ≤ (q : ℚ) / 10000 ∧ (q : ℚ) / 10000 ≤ 1 := by
    intro q hq0 hq1
    constructor
    · positivity
    · rw [div_le_one (by norm_num)]
      exact_mod_cast hq1
  have hsucc : 1 / 2 ≤ x * 10000 - (⌊x * 10000⌋ : ℚ) → ⌊x * 10000⌋ + 1 ≤ 10000 := by
    intro hh
    by_contra hcon
    have hf : ⌊x * 10000⌋ = 10000 := by omega
    rw [hf] at hh
    push_cast at hh
    linarith
  split
  · exact hkey _ hf0 hf1
  · rename_i hge
    push_neg at hge
    split
    · rename_i hgt
      exact hkey _ (by omega) (hsucc hge)
    · split
      · exact hkey _ hf0 hf1
      · exact hkey _ (by omega) (hsucc hge)

/-- The accumulated diff total never exceeds the accumulated char total. -/
theorem sum_diff_le_sum_chars (origLines : List PdfLine) (gens : List PdfLine) :
    (gens.map (fun g => spec_line_diff_chars origLines g)).sum ≤
      (gens.map (fun g => spec_line_chars origLines g)).sum :=
  List.sum_le_sum (fun g _ => spec_line_diff_le_chars origLines g)

theorem sum_matched_le_length (origLines : List PdfLine) (thr : ℚ)
    (gens : List PdfLine) :
    (gens.map (fun g => spec_line_matched origLines thr g)).sum ≤ gens.length := by
  calc (gens.map (fun g => spec_line_matched origLines thr g)).sum
      ≤ (gens.map (fun _ => (1 : Nat))).sum :=
        List.sum_le_sum (fun g _ => spec_line_matched_le_one origLines thr g)
    _ = gens.length := sum_map_one_eq_length gens

/-- The summary produced by `compare_pdfs_and_build_pairs`, written with
the loop totals made explicit. -/
theorem compare_pdfs_summary_eq (origRaw genRaw : List PdfLine) (thr : ℚ) :
    compare_pdfs_and_build_pairs origRaw genRaw thr =
      (((genRaw.map withNorm).map
          (fun g => (processLine (origRaw.map withNorm) thr g).1)),
       { gen_lines := genRaw.length, orig_lines := origRaw.length,
         matched_lines := ((genRaw.map withNorm).map
          (fun g => spec_line_matched (origRaw.map withNorm) thr g)).sum,
         char_accuracy := round4 (if ((genRaw.map withNorm).map
            (fun g => spec_line_chars (origRaw.map withNorm) g)).sum ≠ 0 then
              1 - (((genRaw.map withNorm).map
                (fun g => spec_line_diff_chars (origRaw.map withNorm) g)).sum : ℚ) /
                (((genRaw.map withNorm).map
                  (fun g => spec_line_chars (origRaw.map withNorm) g)).sum : ℚ)
            else 0),
         line_accuracy := round4 (if genRaw.length ≠ 0 then
            (((genRaw.map withNorm).map
              (fun g => spec_line_matched (origRaw.map withNorm) thr g)).sum : ℚ) /
              (genRaw.length : ℚ)
            else 0),
         total_char_diffs := ((genRaw.map withNorm).map
          (fun g => spec_line_diff_chars (origRaw.map withNorm) g)).sum,
         total_chars := ((genRaw.map withNorm).map
          (fun g => spec_line_chars (origRaw.map withNorm) g)).sum,
         error_breakdown :=
          { «matches» := (((genRaw.map withNorm).map
              (fun g => (processLine (origRaw.map withNorm) thr g).1)).filter
                (fun r => r.error_type = "match")).length,
            mismatches := (((genRaw.map withNorm).map
              (fun g => (processLine (origRaw.map withNorm) thr g).1)).filter
                (fun r => r.error_type = "mismatch")).length,
            no_matches := (((genRaw.map withNorm).map
              (fun g => (processLine (origRaw.map withNorm) thr g).1)).filter
                (fun r => r.error_type = "no_match")).length } }) := by
  rw [compare_pdfs_and_build_pairs, buildRows_eq]
  simp only [List.length_map]

/-- C2: both summary ratios of one comparison run lie in `[0, 1]`. -/
theorem summary_accuracy_bounds (origRaw genRaw : List PdfLine) (thr : ℚ) :
    0 ≤ (compare_pdfs_and_build_pairs origRaw genRaw thr).2.char_accuracy ∧
    (compare_pdfs_and_build_pairs origRaw genRaw thr).2.char_accuracy ≤ 1 ∧
    0 ≤ (compare_pdfs_and_build_pairs origRaw genRaw thr).2.line_accuracy ∧
    (compare_pdfs_and_build_pairs origRaw genRaw thr).2.line_accuracy ≤ 1 := by
  rw [compare_pdfs_summary_eq]
  simp only []
  have hchar : ∀ y : ℚ, 0 ≤ y → y ≤ 1 → 0 ≤ round4 y ∧ round4 y ≤ 1 :=
    fun y hy0 hy1 => round4_mem hy0 hy1
  constructor
  · refine (hchar _ ?_ ?_).1
    · split
      · rename_i htc
        have hle := sum_diff_le_sum_chars (origRaw.map withNorm) (genRaw.map withNorm)
        have htcpos : (0 : ℚ) < (((genRaw.map withNorm).map
            (fun g => spec_line_chars (origRaw.map withNorm) g)).sum : ℚ) := by
          exact_mod_cast Nat.pos_of_ne_zero htc
        have hdivle : (((genRaw.map withNorm).map
            (fun g => spec_line_diff_chars (origRaw.map withNorm) g)).sum : ℚ) /
            (((genRaw.map withNorm).map
              (fun g => spec_line_chars (origRaw.map withNorm) g)).sum : ℚ) ≤ 1 := by
          rw [div_le_one htcpos]
          exact_mod_cast hle
        linarith
      · norm_num
    · split
      · rename_i htc
        have htcpos : (0 : ℚ) < (((genRaw.map withNorm).map
            (fun g => spec_line_chars (origRaw.map withNorm) g)).sum : ℚ) := by
          exact_mod_cast Nat.pos_of_ne_zero htc
        have hdiv0 : (0 : ℚ) ≤ (((genRaw.map withNorm).map
            (fun g => spec_line_diff_chars (origRaw.map withNorm) g)).sum : ℚ) /
            (((genRaw.map withNorm).map
              (fun g => spec_line_chars (origRaw.map withNorm) g)).sum : ℚ) := by
          positivity
        linarith
      · norm_num
  refine ⟨?_, ?_, ?_⟩
  · refine (hchar _ ?_ ?_).2
    · split
      · rename_i htc
        have hle := sum_diff_le_sum_chars (origRaw.map withNorm) (genRaw.map withNorm)
        have htcpos : (0 : ℚ) < (((genRaw.map withNorm).map
            (fun g => spec_line_chars (origRaw.map withNorm) g)).sum : ℚ) := by
          exact_mod_cast Nat.pos_of_ne_zero htc
        have hdivle : (((genRaw.map withNorm).map
            (fun g => spec_line_diff_chars (origRaw.map withNorm) g)).sum : ℚ) /
            (((genRaw.map withNorm).map
              (fun g => spec_line_chars (origRaw.map withNorm) g)).sum : ℚ) ≤ 1 := by
          rw [div_le_one htcpos]
          exact_mod_cast hle
        linarith
      · norm_num
    · split
      · rename_i htc
        have htcpos : (0 : ℚ) < (((genRaw.map withNorm).map
            (fun g => spec_line_chars (origRaw.map withNorm) g)).sum : ℚ) := by
          exact_mod_cast Nat.pos_of_ne_zero htc
        have hdiv0 : (0 : ℚ) ≤ (((genRaw.map withNorm).map
            (fun g => spec_line_diff_chars (origRaw.map withNorm) g)).sum : ℚ) /
            (((genRaw.map withNorm).map
              (fun g => spec_line_chars (origRaw.map withNorm) g)).sum : ℚ) := by
          positivity
        linarith
      · norm_num
  · refine (hchar _ ?_ ?_).1
    · split
      · positivity
      · norm_num
    · split
      · rename_i hlen
        have hml := sum_matched_le_length (origRaw.map withNorm) thr (genRaw.map withNorm)
        rw [List.length_map] at hml
        have hlenpos : (0 : ℚ) < (genRaw.length : ℚ) := by
          exact_mod_cast Nat.pos_of_ne_zero hlen
        rw [div_le_one hlenpos]
        exact_mod_cast hml
      · norm_num
  · refine (hchar _ ?_ ?_).2
    · split
      · positivity
      · norm_num
    · split
      · rename_i hlen
        have hml := sum_matched_le_length (origRaw.map withNorm) thr (genRaw.map withNorm)
        rw [List.length_map] at hml
        have hlenpos : (0 : ℚ) < (genRaw.length : ℚ) := by
          exact_mod_cast Nat.pos_of_ne_zero hlen
        rw [div_le_one hlenpos]
        exact_mod_cast hml
      · norm_num

/-- C5 (amended): the loop totals are the per-line sums the claim
describes, matched rows are classified `match`/`mismatch` by comparing
their similarity with the threshold, unmatched rows get `no_match`, and
the two accuracy ratios are the claim's formulas rounded to 4 decimal
places (Python `round(x, 4)`). -/
theorem aggregator_spec (origRaw genRaw : List PdfLine) (thr : ℚ) :
    (compare_pdfs_and_build_pairs origRaw genRaw thr).2.total_chars =
      ((genRaw.map withNorm).map
        (fun g => spec_line_chars (origRaw.map withNorm) g)).sum ∧
    (compare_pdfs_and_build_pairs origRaw genRaw thr).2.total_char_diffs =
      ((genRaw.map withNorm).map
        (fun g => spec_line_diff_chars (origRaw.map withNorm) g)).sum ∧
    (compare_pdfs_and_build_pairs origRaw genRaw thr).2.matched_lines =
      ((genRaw.map withNorm).map
        (fun g => spec_line_matched (origRaw.map withNorm) thr g)).sum ∧
    (∀ r ∈ (compare_pdfs_and_build_pairs origRaw genRaw thr).1,
      (r.orig_page ≠ none →
        (r.error_type = "match" ↔ thr ≤ r.similarity) ∧
        (r.error_type = "mismatch" ↔ ¬ thr ≤ r.similarity)) ∧
      (r.orig_page = none → r.error_type = "no_match")) ∧
    (compare_pdfs_and_build_pairs origRaw genRaw thr).2.char_accuracy =
      round4 (if (compare_pdfs_and_build_pairs origRaw genRaw thr).2.total_chars = 0
        then 0
        else 1 -
          ((compare_pdfs_and_build_pairs origRaw genRaw thr).2.total_char_diffs : ℚ) /
          ((compare_pdfs_and_build_pairs origRaw genRaw thr).2.total_chars : ℚ)) ∧
    (compare_pdfs_and_build_pairs origRaw genRaw thr).2.line_accuracy =
      round4 (if (compare_pdfs_and_build_pairs origRaw genRaw thr).2.gen_lines = 0
        then 0
        else ((compare_pdfs_and_build_pairs origRaw genRaw thr).2.matched_lines : ℚ) /
          ((compare_pdfs_and_build_pairs origRaw genRaw thr).2.gen_lines : ℚ)) := by
  have hceq := compare_pdfs_summary_eq origRaw genRaw thr
  refine ⟨by rw [hceq], by rw [hceq], by rw [hceq], ?_, ?_, ?_⟩
  · intro r hr
    rw [hceq] at hr
    simp only [List.mem_map] at hr
    obtain ⟨g, _, hrg⟩ := hr
    rcases hfb : find_best_match g (origRaw.map withNorm) 12 1 with ⟨s, oopt⟩
    cases oopt with
    | none =>
      rw [← hrg]
      simp [processLine, hfb]
    | some o =>
      rw [← hrg]
      constructor
      · intro _
        by_cases hth : thr ≤ s
        · simp [processLine, hfb, hth]
        · simp [processLine, hfb, hth]
      · intro hnone
        simp [processLine, hfb] at hnone
  · rw [hceq]
    simp only []
    congr 1
    by_cases htc : ((genRaw.map withNorm).map
        (fun g => spec_line_chars (origRaw.map withNorm) g)).sum = 0
    · rw [if_neg (fun hne => hne htc), if_pos htc]
    · rw [if_pos htc, if_neg htc]
  · rw [hceq]
    simp only []
    congr 1
    by_cases hlen : genRaw.length = 0
    · rw [if_neg (fun hne => hne hlen), if_pos hlen]
    · rw [if_pos hlen, if_neg hlen]

/-- C5 counterexample: the summary's `char_accuracy` is the rounded value
`round(2/3, 4) = 0.6667`, not the exact `1 − total_diff_chars/total_chars
= 2/3` the claim states. -/
theorem aggregator_rounding_counterexample :
    (compare_pdfs_and_build_pairs [⟨1, 1, "abd", 0, 0, 10, 10, ""⟩]
        [⟨1, 1, "abc", 0, 0, 10, 10, ""⟩] 75).2.char_accuracy ≠
      1 - ((compare_pdfs_and_build_pairs [⟨1, 1, "abd", 0, 0, 10, 10, ""⟩]
          [⟨1, 1, "abc", 0, 0, 10, 10, ""⟩] 75).2.total_char_diffs : ℚ) /
        ((compare_pdfs_and_build_pairs [⟨1, 1, "abd", 0, 0, 10, 10, ""⟩]
          [⟨1, 1, "abc", 0, 0, 10, 10, ""⟩] 75).2.total_chars : ℚ) := by
  with_unfolding_all decide

/-- C5 witness: the totals equation and the `match`-iff-threshold row
classification, instantiated at a concrete one-line comparison. -/
theorem aggregator_spec_witness :
    (compare_pdfs_and_build_pairs [⟨1, 1, "abd", 0, 0, 10, 10, ""⟩]
        [⟨1, 1, "abc", 0, 0, 10, 10, ""⟩] 75).2.total_chars =
      (([(⟨1, 1, "abc", 0, 0, 10, 10, ""⟩ : PdfLine)].map withNorm).map
        (fun g => spec_line_chars
          ([(⟨1, 1, "abd", 0, 0, 10, 10, ""⟩ : PdfLine)].map withNorm) g)).sum ∧
    ((processLine ([(⟨1, 1, "abd", 0, 0, 10, 10, ""⟩ : PdfLine)].map withNorm) 75
        (withNorm ⟨1, 1, "abc", 0, 0, 10, 10, ""⟩)).1.error_type = "match" ↔
      (75 : ℚ) ≤ (processLine
        ([(⟨1, 1, "abd", 0, 0, 10, 10, ""⟩ : PdfLine)].map withNorm) 75
        (withNorm ⟨1, 1, "abc", 0, 0, 10, 10, ""⟩)).1.similarity) := by
  have h := aggregator_spec [⟨1, 1, "abd", 0, 0, 10, 10, ""⟩]
    [⟨1, 1, "abc", 0, 0, 10, 10, ""⟩] 75
  refine ⟨h.1, ?_⟩
  exact ((h.2.2.2.1 _ (by with_unfolding_all decide)).1
    (by with_unfolding_all decide)).1

/-- The score component of `find_best_match` is a similarity score (or the
degenerate 0), hence lies in `[0, 100]`. -/
theorem find_best_match_score_mem (g : PdfLine) (origLines : List PdfLine)
    (yTol : ℚ) (pw : Int) :
    0 ≤ (find_best_match g origLines yTol pw).1 ∧
      (find_best_match g origLines yTol pw).1 ≤ 100 := by
  rw [find_best_match_eq_pool]
  cases hpool : matchPool g origLines yTol pw with
  | nil =>
    simp only [List.map_nil, pyMax]
    norm_num
  | cons x xs =>
    simp only [List.map_cons]
    obtain ⟨m, hm, pre, post, hdec, hpre, hall⟩ :=
      pyMax_spec (similarity_score g.norm x.norm, x)
        (xs.map (fun oL : PdfLine => (similarity_score g.norm oL.norm, oL)))
    rw [hm]
    show 0 ≤ m.1 ∧ m.1 ≤ 100
    have hmmem : m ∈ (similarity_score g.norm x.norm, x) ::
        xs.map (fun oL : PdfLine => (similarity_score g.norm oL.norm, oL)) := by
      rw [hdec]
      exact List.mem_append_right _ (List.mem_cons_self _ _)
    rcases List.mem_cons.1 hmmem with hmx | hmxs
    · rw [hmx]
      exact similarity_score_mem _ _
    · obtain ⟨oL, _, hoL⟩ := List.mem_map.1 hmxs
      rw [← hoL]
      exact similarity_score_mem _ _

/-- C9: every row of a comparison run has `error_type = "no_match"` iff
`orig_page` is null, `matched = true` only on `error_type = "match"`, and
a similarity in `[0, 100]`. -/
theorem comparison_row_invariants (origRaw genRaw : List PdfLine) (thr : ℚ)
    (r : Row) (hr : r ∈ (compare_pdfs_and_build_pairs origRaw genRaw thr).1) :
    (r.error_type = "no_match" ↔ r.orig_page = none) ∧
    (r.matched = true → r.error_type = "match") ∧
    0 ≤ r.similarity ∧ r.similarity ≤ 100 := by
  rw [compare_pdfs_summary_eq] at hr
  simp only [List.mem_map] at hr
  obtain ⟨g, _, hrg⟩ := hr
  rcases hfb : find_best_match g (origRaw.map withNorm) 12 1 with ⟨s, oopt⟩
  have hs : 0 ≤ s ∧ s ≤ 100 := by
    have hmem := find_best_match_score_mem g (origRaw.map withNorm) 12 1
    rw [hfb] at hmem
    exact hmem
  cases oopt with
  | none =>
    rw [← hrg]
    refine ⟨by simp [processLine, hfb], by simp [processLine, hfb], ?_, ?_⟩
    · simp [processLine, hfb]
    · simp [processLine, hfb]
  | some o =>
    rw [← hrg]
    by_cases hth : thr ≤ s
    · refine ⟨by simp [processLine, hfb, hth], by simp [processLine, hfb, hth],
        ?_, ?_⟩
      · simpa [processLine, hfb, hth] using hs.1
      · simpa [processLine, hfb, hth] using hs.2
    · refine ⟨by simp [processLine, hfb, hth], by simp [processLine, hfb, hth],
        ?_, ?_⟩
      · simpa [processLine, hfb, hth] using hs.1
      · simpa [processLine, hfb, hth] using hs.2

/-- C9 witness: the invariants instantiated at the row of a concrete
one-line comparison run. -/
theorem comparison_row_invariants_witness :
    ((processLine ([(⟨1, 1, "abd", 0, 0, 10, 10, ""⟩ : PdfLine)].map withNorm) 75
        (withNorm ⟨1, 1, "abc", 0, 0, 10, 10, ""⟩)).1.error_type = "no_match" ↔
      (processLine ([(⟨1, 1, "abd", 0, 0, 10, 10, ""⟩ : PdfLine)].map withNorm) 75
        (withNorm ⟨1, 1, "abc", 0, 0, 10, 10, ""⟩)).1.orig_page = none) ∧
    ((processLine ([(⟨1, 1, "abd", 0, 0, 10, 10, ""⟩ : PdfLine)].map withNorm) 75
        (withNorm ⟨1, 1, "abc", 0, 0, 10, 10, ""⟩)).1.matched = true →
      (processLine ([(⟨1, 1, "abd", 0, 0, 10, 10, ""⟩ : PdfLine)].map withNorm) 75
        (withNorm ⟨1, 1, "abc", 0, 0, 10, 10, ""⟩)).1.error_type = "match") ∧
    0 ≤ (processLine ([(⟨1, 1, "abd", 0, 0, 10, 10, ""⟩ : PdfLine)].map withNorm) 75
        (withNorm ⟨1, 1, "abc", 0, 0, 10, 10, ""⟩)).1.similarity ∧
    (processLine ([(⟨1, 1, "abd", 0, 0, 10, 10, ""⟩ : PdfLine)].map withNorm) 75
        (withNorm ⟨1, 1, "abc", 0, 0, 10, 10, ""⟩)).1.similarity ≤ 100 :=
  comparison_row_invariants [⟨1, 1, "abd", 0, 0, 10, 10, ""⟩]
    [⟨1, 1, "abc", 0, 0, 10, 10, ""⟩] 75 _ (by with_unfolding_all decide)

/-! ## Lemmas about the difflib embedding -/

theorem backRun_bound (a b P : List String) (alo blo : Nat) :
    ∀ i j, backRun a b P alo blo i j = 0 ∨
      (alo + backRun a b P alo blo i j ≤ i + 1 ∧
       blo + backRun a b P alo blo i j ≤ j + 1) := by
  intro i
  induction i using Nat.strong_induction_on with
  | _ i ih =>
    intro j
    rw [backRun]
    split
    · rename_i hcond
      obtain ⟨hai, hbj, -⟩ := hcond
      split
      · right
        omega
      · rename_i hij
        right
        have hi1 : i - 1 < i := by omega
        rcases ih (i - 1) hi1 (j - 1) with h0 | ⟨h1, h2⟩
        · rw [h0]
          omega
        · omega
    · left
      rfl

theorem extendLeftLen_bound (a b : List String) (alo blo : Nat) :
    ∀ i j, alo ≤ i → blo ≤ j →
      alo + extendLeftLen a b alo blo i j ≤ i ∧
      blo + extendLeftLen a b alo blo i j ≤ j := by
  intro i
  induction i using Nat.strong_induction_on with
  | _ i ih =>
    intro j hai hbj
    rw [extendLeftLen]
    split
    · rename_i hcond
      obtain ⟨hlt1, hlt2, -⟩ := hcond
      have := ih (i - 1) (by omega) (j - 1) (by omega) (by omega)
      omega
    · omega

theorem extendRightLen_bound (a b : List String) (ahi bhi : Nat) :
    ∀ n i j, ahi - i ≤ n → i ≤ ahi → j ≤ bhi →
      i + extendRightLen a b ahi bhi i j ≤ ahi ∧
      j + extendRightLen a b ahi bhi i j ≤ bhi := by
  intro n
  induction n with
  | zero =>
    intro i j hn hia hjb
    rw [extendRightLen]
    split
    · rename_i hcond
      omega
    · omega
  | succ n ih =>
    intro i j hn hia hjb
    rw [extendRightLen]
    split
    · rename_i hcond
      obtain ⟨hlt1, hlt2, -⟩ := hcond
      have := ih (i + 1) (j + 1) (by omega) (by omega) (by omega)
      omega
    · omega

theorem foldl_preserve {α β : Type} (P : β → Prop) (f : β → α → β) :
    ∀ (l : List α) (s : β), P s → (∀ s' a, P s' → a ∈ l → P (f s' a)) →
      P (l.foldl f s)
  | [], s, hs, _ => hs
  | x :: xs, s, hs, hf =>
    foldl_preserve P f xs (f s x) (hf s x hs (List.mem_cons_self _ _))
      (fun s' a hs' ha => hf s' a hs' (List.mem_cons_of_mem _ ha))

theorem flmCore_bounds (a b P : List String) (alo ahi blo bhi : Nat)
    (halo : alo ≤ ahi) (hblo : blo ≤ bhi) :
    alo ≤ (flmCore a b P alo ahi blo bhi).1 ∧
    blo ≤ (flmCore a b P alo ahi blo bhi).2.1 ∧
    (flmCore a b P alo ahi blo bhi).1 + (flmCore a b P alo ahi blo bhi).2.2 ≤ ahi ∧
    (flmCore a b P alo ahi blo bhi).2.1 + (flmCore a b P alo ahi blo bhi).2.2 ≤ bhi := by
  rw [flmCore]
  refine foldl_preserve
    (fun best : Nat × Nat × Nat => alo ≤ best.1 ∧ blo ≤ best.2.1 ∧
      best.1 + best.2.2 ≤ ahi ∧ best.2.1 + best.2.2 ≤ bhi) _ _ _
    ⟨le_refl _, le_refl _, by dsimp only; omega, by dsimp only; omega⟩ ?_
  intro best i hbest hi
  have hi' : alo ≤ i ∧ i < ahi := by
    have := List.mem_range'_1.1 hi
    omega
  refine foldl_preserve
    (fun best : Nat × Nat × Nat => alo ≤ best.1 ∧ blo ≤ best.2.1 ∧
      best.1 + best.2.2 ≤ ahi ∧ best.2.1 + best.2.2 ≤ bhi) _ _ _ hbest ?_
  intro best' j hbest' hj
  have hj' : blo ≤ j ∧ j < bhi := by
    have := List.mem_range'_1.1 hj
    omega
  dsimp only
  split
  · rename_i hlt
    dsimp only
    rcases backRun_bound a b P alo blo i j with h0 | ⟨h1, h2⟩
    · omega
    · omega
  · exact hbest'

theorem findLongestMatch_bounds (a b P : List String) (alo ahi blo bhi : Nat)
    (halo : alo ≤ ahi) (hblo : blo ≤ bhi) :
    alo ≤ (findLongestMatch a b P alo ahi blo bhi).1 ∧
    blo ≤ (findLongestMatch a b P alo ahi blo bhi).2.1 ∧
    (findLongestMatch a b P alo ahi blo bhi).1 +
      (findLongestMatch a b P alo ahi blo bhi).2.2 ≤ ahi ∧
    (findLongestMatch a b P alo ahi blo bhi).2.1 +
      (findLongestMatch a b P alo ahi blo bhi).2.2 ≤ bhi := by
  obtain ⟨hc1, hc2, hc3, hc4⟩ := flmCore_bounds a b P alo ahi blo bhi halo hblo
  rw [findLongestMatch]
  simp only []
  obtain ⟨he1, he2⟩ := extendLeftLen_bound a b alo blo
    (flmCore a b P alo ahi blo bhi).1 (flmCore a b P alo ahi blo bhi).2.1 hc1 hc2
  have heq1 : (flmCore a b P alo ahi blo bhi).1 -
      extendLeftLen a b alo blo (flmCore a b P alo ahi blo bhi).1
        (flmCore a b P alo ahi blo bhi).2.1 +
      ((flmCore a b P alo ahi blo bhi).2.2 +
        extendLeftLen a b alo blo (flmCore a b P alo ahi blo bhi).1
          (flmCore a b P alo ahi blo bhi).2.1) =
      (flmCore a b P alo ahi blo bhi).1 + (flmCore a b P alo ahi blo bhi).2.2 := by
    omega
  obtain ⟨hr1, hr2⟩ := extendRightLen_bound a b ahi bhi
    (ahi - ((flmCore a b P alo ahi blo bhi).1 + (flmCore a b P alo ahi blo bhi).2.2))
    ((flmCore a b P alo ahi blo bhi).1 -
      extendLeftLen a b alo blo (flmCore a b P alo ahi blo bhi).1
        (flmCore a b P alo ahi blo bhi).2.1 +
      ((flmCore a b P alo ahi blo bhi).2.2 +
        extendLeftLen a b alo blo (flmCore a b P alo ahi blo bhi).1
          (flmCore a b P alo ahi blo bhi).2.1))
    ((flmCore a b P alo ahi blo bhi).2.1 -
      extendLeftLen a b alo blo (flmCore a b P alo ahi blo bhi).1
        (flmCore a b P alo ahi blo bhi).2.1 +
      ((flmCore a b P alo ahi blo bhi).2.2 +
        extendLeftLen a b alo blo (flmCore a b P alo ahi blo bhi).1
          (flmCore a b P alo ahi blo bhi).2.1))
    (by omega) (by omega) (by omega)
  refine ⟨by omega, by omega, by omega, by omega⟩

theorem blocksChain_mono (hiA hiB : Nat) :
    ∀ (M : List (Nat × Nat × Nat)) (ca cb ca' cb' : Nat),
      BlocksChain hiA hiB ca cb M → ca' ≤ ca → cb' ≤ cb →
      BlocksChain hiA hiB ca' cb' M
  | [], _, _, _, _, _, _, _ => trivial
  | (i, j, k) :: rest, ca, cb, ca', cb', h, h1, h2 => by
    obtain ⟨g1, g2, g3, g4, g5⟩ := h
    exact ⟨le_trans h1 g1, le_trans h2 g2, g3, g4, g5⟩

theorem blocksChain_append (hiA hiB : Nat) :
    ∀ (L : List (Nat × Nat × Nat)) (ca cb mi mj : Nat)
      (M : List (Nat × Nat × Nat)),
      BlocksChain mi mj ca cb L → BlocksChain hiA hiB mi mj M →
      mi ≤ hiA → mj ≤ hiB → ca ≤ mi → cb ≤ mj →
      BlocksChain hiA hiB ca cb (L ++ M)
  | [], ca, cb, mi, mj, M, _, hM, _, _, hca, hcb => by
    simpa using blocksChain_mono hiA hiB M mi mj ca cb hM hca hcb
  | (i1, j1, k1) :: L', ca, cb, mi, mj, M, hL, hM, h1, h2, hca, hcb => by
    obtain ⟨g1, g2, g3, g4, g5⟩ := hL
    exact ⟨g1, g2, le_trans g3 h1, le_trans g4 h2,
      blocksChain_append hiA hiB L' (i1 + k1) (j1 + k1) mi mj M g5 hM h1 h2 g3 g4⟩

theorem matchingBlocks_chain (a b P : List String) :
    ∀ (n alo ahi blo bhi : Nat), ahi - alo + (bhi - blo) ≤ n →
      alo ≤ ahi → blo ≤ bhi →
      BlocksChain ahi bhi alo blo (matchingBlocks a b P alo ahi blo bhi) := by
  intro n
  induction n with
  | zero =>
    intro alo ahi blo bhi hn halo hblo
    obtain ⟨hb1, hb2, hb3, hb4⟩ :=
      findLongestMatch_bounds a b P alo ahi blo bhi halo hblo
    rw [matchingBlocks]
    rcases hflm : findLongestMatch a b P alo ahi blo bhi with ⟨i, j, k⟩
    simp only [hflm] at hb1 hb2 hb3 hb4 ⊢
    have hk0 : k = 0 := by omega
    rw [dif_pos hk0]
    trivial
  | succ n ih =>
    intro alo ahi blo bhi hn halo hblo
    obtain ⟨hb1, hb2, hb3, hb4⟩ :=
      findLongestMatch_bounds a b P alo ahi blo bhi halo hblo
    rw [matchingBlocks]
    rcases hflm : findLongestMatch a b P alo ahi blo bhi with ⟨i, j, k⟩
    simp only [hflm] at hb1 hb2 hb3 hb4 ⊢
    by_cases hk : k = 0
    · rw [dif_pos hk]
      trivial
    · rw [dif_neg hk]
      have hrest : BlocksChain ahi bhi (i + k) (j + k)
          (if i + k < ahi ∧ j + k < bhi ∧ alo ≤ i ∧ blo ≤ j then
            matchingBlocks a b P (i + k) ahi (j + k) bhi else []) := by
        by_cases hR : i + k < ahi ∧ j + k < bhi ∧ alo ≤ i ∧ blo ≤ j
        · rw [if_pos hR]
          exact ih (i + k) ahi (j + k) bhi (by omega) (by omega) (by omega)
        · rw [if_neg hR]
          trivial
      have hM : BlocksChain ahi bhi i j
          ((i, j, k) ::
            (if i + k < ahi ∧ j + k < bhi ∧ alo ≤ i ∧ blo ≤ j then
              matchingBlocks a b P (i + k) ahi (j + k) bhi else [])) :=
        ⟨le_refl _, le_refl _, hb3, hb4, hrest⟩
      by_cases hL : alo < i ∧ blo < j ∧ i + k ≤ ahi ∧ j + k ≤ bhi
      · rw [dif_pos hL]
        have hchainL : BlocksChain i j alo blo
            (matchingBlocks a b P alo i blo j) :=
          ih alo i blo j (by omega) (by omega) (by omega)
        exact blocksChain_append ahi bhi _ alo blo i j _ hchainL
          (by simpa using hM) (by omega) (by omega) (by omega) (by omega)
      · rw [dif_neg hL]
        simp only [List.nil_append]
        exact blocksChain_mono ahi bhi _ i j alo blo (by simpa using hM)
          (by omega) (by omega)

theorem mergeLoop_chain (hiA hiB : Nat) :
    ∀ (L : List (Nat × Nat × Nat)) (i1 j1 k1 : Nat),
      BlocksChain hiA hiB (i1 + k1) (j1 + k1) L →
      i1 + k1 ≤ hiA → j1 + k1 ≤ hiB →
      BlocksChain hiA hiB i1 j1 (mergeLoop (i1, j1, k1) L)
  | [], i1, j1, k1, hL, h1, h2 => by
    rw [mergeLoop]
    split
    · trivial
    · exact ⟨le_refl _, le_refl _, h1, h2, trivial⟩
  | (i2, j2, k2) :: rest, i1, j1, k1, hL, h1, h2 => by
    obtain ⟨g1, g2, g3, g4, g5⟩ := hL
    rw [mergeLoop]
    split
    · rename_i hadj
      refine mergeLoop_chain hiA hiB rest i1 j1 (k1 + k2) ?_ (by omega) (by omega)
      have heq1 : i1 + (k1 + k2) = i2 + k2 := by omega
      have heq2 : j1 + (k1 + k2) = j2 + k2 := by omega
      rw [heq1, heq2]
      exact g5
    · split
      · rename_i hadj hk1
        exact blocksChain_mono hiA hiB _ i2 j2 i1 j1
          (mergeLoop_chain hiA hiB rest i2 j2 k2 g5 g3 g4) (by omega) (by omega)
      · rename_i hadj hk1
        exact ⟨le_refl _, le_refl _, h1, h2,
          blocksChain_mono hiA hiB _ i2 j2 (i1 + k1) (j1 + k1)
            (mergeLoop_chain hiA hiB rest i2 j2 k2 g5 g3 g4) g1 g2⟩

theorem opcodeLoop_wf (la lb : Nat) :
    ∀ (L : List (Nat × Nat × Nat)) (i j : Nat),
      BlocksChain la lb i j L →
      ∀ op ∈ opcodeLoop i j L, OpcodeWF la lb op
  | [], i, j, _, op, hop => by simp [opcodeLoop] at hop
  | (ai, bj, size) :: rest, i, j, h, op, hop => by
    obtain ⟨g1, g2, g3, g4, g5⟩ := h
    have hpre : ∀ op' ∈ (if i < ai ∧ j < bj then [(⟨"replace", i, ai, j, bj⟩ : Opcode)]
        else if i < ai then [(⟨"delete", i, ai, j, bj⟩ : Opcode)]
        else if j < bj then [(⟨"insert", i, ai, j, bj⟩ : Opcode)]
        else ([] : List Opcode)), OpcodeWF la lb op' := by
      intro op' hop'
      split at hop'
      · rename_i hc
        simp only [List.mem_singleton] at hop'
        subst hop'
        exact Or.inl ⟨rfl, hc.1, by dsimp only; omega, hc.2, by dsimp only; omega⟩
      · split at hop'
        · rename_i hc1 hc2
          simp only [List.mem_singleton] at hop'
          subst hop'
          exact Or.inr (Or.inl ⟨rfl, hc2, by dsimp only; omega⟩)
        · split at hop'
          · rename_i hc1 hc2 hc3
            simp only [List.mem_singleton] at hop'
            subst hop'
            exact Or.inr (Or.inr (Or.inl ⟨rfl, hc3, by dsimp only; omega⟩))
          · simp at hop'
    have heq : ∀ op' ∈ (if size ≠ 0 then
        [(⟨"equal", ai, ai + size, bj, bj + size⟩ : Opcode)]
        else ([] : List Opcode)), OpcodeWF la lb op' := by
      intro op' hop'
      split at hop'
      · rename_i hsz
        simp only [List.mem_singleton] at hop'
        subst hop'
        exact Or.inr (Or.inr (Or.inr ⟨rfl, by dsimp only; omega, by dsimp only; omega,
          by dsimp only; omega, by dsimp only; omega⟩))
      · simp at hop'
    rw [opcodeLoop] at hop
    rcases List.mem_append.1 hop with hAB | hC
    · rcases List.mem_append.1 hAB with hA | hB
      · exact hpre op hA
      · exact heq op hB
    · exact opcodeLoop_wf la lb rest (ai + size) (bj + size) g5 op hC

theorem getOpcodes_wf (a b : List String) :
    ∀ op ∈ getOpcodes a b, OpcodeWF a.length b.length op := by
  have hblocks := matchingBlocks_chain a b (popularSet b)
    (a.length - 0 + (b.length - 0)) 0 a.length 0 b.length (by omega)
    (by omega) (by omega)
  have hmerged := mergeLoop_chain a.length b.length
    (matchingBlocks a b (popularSet b) 0 a.length 0 b.length) 0 0 0
    (by simpa using hblocks) (by omega) (by omega)
  have hsent : BlocksChain a.length b.length a.length b.length
      [(a.length, b.length, 0)] := ⟨le_refl _, le_refl _, by omega, by omega, trivial⟩
  have hall : BlocksChain a.length b.length 0 0 (getMatchingBlocks a b) := by
    rw [getMatchingBlocks]
    exact blocksChain_append a.length b.length _ 0 0 a.length b.length _
      hmerged hsent (le_refl _) (le_refl _) (by omega) (by omega)
  exact opcodeLoop_wf a.length b.length (getMatchingBlocks a b) 0 0 hall

/-! ## Rendering lemmas for `word_level_diff_html` -/

theorem string_eq_empty_of_length (s : String) (h : s.length = 0) : s = "" := by
  have hd : s.data = [] := List.length_eq_zero.1 h
  have he : ("" : String).data = [] := rfl
  exact String.ext (hd.trans he.symm)

theorem pySplit_mem_ne_empty (s : String) : ∀ t ∈ pySplit s, t ≠ "" := by
  intro t ht
  have hmem := List.mem_filter.1 ht
  simpa using hmem.2

theorem pyJoin_ne_empty (sep x : String) (xs : List String) (hx : x ≠ "") :
    pyJoin sep (x :: xs) ≠ "" := by
  cases xs with
  | nil => simpa [pyJoin] using hx
  | cons y ys =>
    rw [pyJoin]
    intro hcon
    have hlen : (x ++ sep ++ pyJoin sep (y :: ys)).length = 0 := by
      rw [hcon]
      rfl
    rw [String.length_append, String.length_append] at hlen
    have hx0 : x.length = 0 := by omega
    exact hx (string_eq_empty_of_length x hx0)

theorem append3_ne_empty (p m q : String) (hp : p ≠ "") : p ++ m ++ q ≠ "" := by
  intro hcon
  have hlen : (p ++ m ++ q).length = 0 := by
    rw [hcon]
    rfl
  rw [String.length_append, String.length_append] at hlen
  have hp0 : p.length = 0 := by omega
  exact hp (string_eq_empty_of_length p hp0)

theorem sliceJoin_ne_empty (ts : List String) (i1 i2 : Nat)
    (htok : ∀ t ∈ ts, t ≠ "") (h1 : i1 < i2) (h2 : i2 ≤ ts.length) :
    sliceJoin ts i1 i2 ≠ "" := by
  rw [sliceJoin]
  cases hsl : (ts.take i2).drop i1 with
  | nil =>
    exfalso
    have hlen : ((ts.take i2).drop i1).length = 0 := by
      rw [hsl]
      rfl
    rw [List.length_drop, List.length_take] at hlen
    omega
  | cons t rest =>
    have htmem : t ∈ ts := by
      have hin : t ∈ (ts.take i2).drop i1 := by
        rw [hsl]
        exact List.mem_cons_self _ _
      exact List.mem_of_mem_take (List.mem_of_mem_drop hin)
    exact pyJoin_ne_empty " " t rest (htok t htmem)

theorem foldl_diffStep (aT bT : List String) :
    ∀ (ops : List Opcode) (acc : List String × List String),
      ops.foldl (diffStep aT bT) acc =
        (acc.1 ++ ops.filterMap (diffGenEntry aT),
         acc.2 ++ ops.filterMap (diffOrigEntry bT))
  | [], acc => by simp
  | op :: rest, acc => by
    rw [List.foldl_cons, foldl_diffStep aT bT rest]
    rw [diffStep]
    cases hg : diffGenEntry aT op <;> cases ho : diffOrigEntry bT op <;>
      simp [List.filterMap_cons, hg, ho]

theorem diffGenEntry_eq_spec (aT : List String) (lb : Nat) (op : Opcode)
    (htok : ∀ t ∈ aT, t ≠ "") (hwf : OpcodeWF aT.length lb op) :
    diffGenEntry aT op = specGenRun aT op := by
  rcases hwf with ⟨htag, h1, h2, h3, h4⟩ | ⟨htag, h1, h2⟩ |
    ⟨htag, h1, h2⟩ | ⟨htag, h1, h2, h3, h4⟩
  · have hne := sliceJoin_ne_empty aT op.a1 op.a2 htok h1 h2
    simp [diffGenEntry, specGenRun, htag, orEmpty, hne]
  · simp [diffGenEntry, specGenRun, htag]
  · simp [diffGenEntry, specGenRun, htag]
  · simp [diffGenEntry, specGenRun, htag]

theorem diffOrigEntry_eq_spec (la : Nat) (bT : List String) (op : Opcode)
    (htok : ∀ t ∈ bT, t ≠ "") (hwf : OpcodeWF la bT.length op) :
    diffOrigEntry bT op = specOrigRun bT op := by
  rcases hwf with ⟨htag, h1, h2, h3, h4⟩ | ⟨htag, h1, h2⟩ |
    ⟨htag, h1, h2⟩ | ⟨htag, h1, h2, h3, h4⟩
  · have hne := sliceJoin_ne_empty bT op.b1 op.b2 htok h3 h4
    simp [diffOrigEntry, specOrigRun, htag, orEmpty, hne]
  · simp [diffOrigEntry, specOrigRun, htag]
  · simp [diffOrigEntry, specOrigRun, htag]
  · simp [diffOrigEntry, specOrigRun, htag]

theorem filterMap_congr_mem {α β : Type} (f g : α → Option β) :
    ∀ (l : List α), (∀ x ∈ l, f x = g x) → l.filterMap f = l.filterMap g
  | [], _ => rfl
  | x :: xs, h => by
    rw [List.filterMap_cons, List.filterMap_cons,
      h x (List.mem_cons_self _ _),
      filterMap_congr_mem f g xs (fun y hy => h y (List.mem_cons_of_mem _ hy))]

theorem specGenRun_mem_ne_empty (aT : List String) (lb : Nat)
    (htok : ∀ t ∈ aT, t ≠ "") (ops : List Opcode)
    (hwf : ∀ op ∈ ops, OpcodeWF aT.length lb op) :
    ∀ s ∈ ops.filterMap (specGenRun aT), s ≠ "" := by
  intro s hs
  obtain ⟨op, hop, hsome⟩ := List.mem_filterMap.1 hs
  rcases hwf op hop with ⟨htag, h1, h2, h3, h4⟩ | ⟨htag, h1, h2⟩ |
    ⟨htag, h1, h2⟩ | ⟨htag, h1, h2, h3, h4⟩
  · simp [specGenRun, htag] at hsome
    exact hsome ▸ append3_ne_empty _ _ _ (by simp)
  · simp [specGenRun, htag] at hsome
    exact hsome ▸ append3_ne_empty _ _ _ (by simp)
  · simp [specGenRun, htag] at hsome
  · simp [specGenRun, htag] at hsome
    exact hsome ▸ sliceJoin_ne_empty aT op.a1 op.a2 htok h1 h2

theorem specOrigRun_mem_ne_empty (la : Nat) (bT : List String)
    (htok : ∀ t ∈ bT, t ≠ "") (ops : List Opcode)
    (hwf : ∀ op ∈ ops, OpcodeWF la bT.length op) :
    ∀ s ∈ ops.filterMap (specOrigRun bT), s ≠ "" := by
  intro s hs
  obtain ⟨op, hop, hsome⟩ := List.mem_filterMap.1 hs
  rcases hwf op hop with ⟨htag, h1, h2, h3, h4⟩ | ⟨htag, h1, h2⟩ |
    ⟨htag, h1, h2⟩ | ⟨htag, h1, h2, h3, h4⟩
  · simp [specOrigRun, htag] at hsome
    exact hsome ▸ append3_ne_empty _ _ _ (by simp)
  · simp [specOrigRun, htag] at hsome
  · simp [specOrigRun, htag] at hsome
    exact hsome ▸ append3_ne_empty _ _ _ (by simp)
  · simp [specOrigRun, htag] at hsome
    exact hsome ▸ sliceJoin_ne_empty bT op.b1 op.b2 htok h3 h4

/-- C6 (amended): for non-empty inputs, `word_level_diff_html` tokenizes
both texts by whitespace, computes difflib's recursive
longest-matching-block opcode alignment, and emits per side the
space-joined concatenation of its runs — equal runs verbatim, replace
runs in the side's "replaced" marker, delete runs in the generated-side
"deleted" marker, insert runs in the original-side "added" marker. -/
theorem word_level_diff_render (a b : String) (ha : a ≠ "") (hb : b ≠ "") :
    word_level_diff_html a b =
      (specSideRender (specGenRun (pySplit a))
        (getOpcodes (pySplit a) (pySplit b)),
       specSideRender (specOrigRun (pySplit b))
        (getOpcodes (pySplit a) (pySplit b))) := by
  rw [word_level_diff_html, if_neg (fun hcon => ha hcon.1), if_neg ha, if_neg hb]
  simp only []
  rw [foldl_diffStep]
  simp only [List.nil_append]
  have hwf := getOpcodes_wf (pySplit a) (pySplit b)
  rw [filterMap_congr_mem (diffGenEntry (pySplit a)) (specGenRun (pySplit a)) _
      (fun op hop => diffGenEntry_eq_spec (pySplit a) (pySplit b).length op
        (pySplit_mem_ne_empty a) (hwf op hop)),
    filterMap_congr_mem (diffOrigEntry (pySplit b)) (specOrigRun (pySplit b)) _
      (fun op hop => diffOrigEntry_eq_spec (pySplit a).length (pySplit b) op
        (pySplit_mem_ne_empty b) (hwf op hop))]
  rw [specSideRender, specSideRender]
  have hfil1 : ((getOpcodes (pySplit a) (pySplit b)).filterMap
      (specGenRun (pySplit a))).filter (fun s => s ≠ "") =
      (getOpcodes (pySplit a) (pySplit b)).filterMap (specGenRun (pySplit a)) := by
    apply List.filter_eq_self.2
    intro s hs
    simpa using specGenRun_mem_ne_empty (pySplit a) (pySplit b).length
      (pySplit_mem_ne_empty a) _ hwf s hs
  have hfil2 : ((getOpcodes (pySplit a) (pySplit b)).filterMap
      (specOrigRun (pySplit b))).filter (fun s => s ≠ "") =
      (getOpcodes (pySplit a) (pySplit b)).filterMap (specOrigRun (pySplit b)) := by
    apply List.filter_eq_self.2
    intro s hs
    simpa using specOrigRun_mem_ne_empty (pySplit a).length (pySplit b)
      (pySplit_mem_ne_empty b) _ hwf s hs
  rw [hfil1, hfil2]

/-- C6 witness: the render theorem instantiated at the claim's example,
with the concrete marked output evaluated. -/
theorem word_level_diff_render_witness :
    word_level_diff_html "a b c" "a x c" =
      (specSideRender (specGenRun (pySplit "a b c"))
        (getOpcodes (pySplit "a b c") (pySplit "a x c")),
       specSideRender (specOrigRun (pySplit "a x c"))
        (getOpcodes (pySplit "a b c") (pySplit "a x c"))) ∧
    word_level_diff_html "a b c" "a x c" =
      ("a <span class=\"error replace-generated\">b</span> c",
       "a <span class=\"error replace-original\">x</span> c") := by
  refine ⟨word_level_diff_render "a b c" "a x c" (by decide) (by decide), ?_⟩
  with_unfolding_all decide

set_option maxRecDepth 40000 in
/-- C6 counterexample: on `"a b c a b"` vs `"c a b a b"` the difflib
alignment passes only 3 tokens as equal runs while a longest common
subsequence of the token lists has 4 tokens, so the computed opcode
alignment is NOT LCS-based. -/
theorem word_level_diff_lcs_counterexample :
    equalTotal (getOpcodes (pySplit "a b c a b") (pySplit "c a b a b")) = 3 ∧
    lcsLen (pySplit "a b c a b") (pySplit "c a b a b") = 4 ∧
    ¬ IsLCSAligned (pySplit "a b c a b") (pySplit "c a b a b")
      (getOpcodes (pySplit "a b c a b") (pySplit "c a b a b")) := by
  refine ⟨?_, ?_, ?_⟩
  · with_unfolding_all decide
  · with_unfolding_all decide
  · rw [IsLCSAligned]
    with_unfolding_all decide

end PdfCompare
